import Mathlib

/-!
Verification of the ResumeForge backend synthesis pipeline.

Python strings are embedded as `List Char` (`PyStr`), raw file bytes as
`List (Fin 256)`.  Each definition below is a direct translation of the
corresponding function in `src/backend/app/...`; external library calls
(the Groq client, `json.loads`, `pypdf`'s reader, pydantic's generated
constructors) are taken as explicit function parameters, so every theorem
quantifies over the behaviour of the external collaborator.
-/

/-- Python `str` values, one `Char` per code point. -/
abbrev PyStr := List Char

namespace Py

/-- The characters removed by Python's `str.strip()` with no argument. -/
def stripChars : List Char := [' ', '\t', '\n', '\r', '\x0b', '\x0c']

/-- `str.lstrip()`. -/
def lstrip (s : PyStr) : PyStr := s.dropWhile (fun c => c ∈ stripChars)

/-- `str.rstrip()`. -/
def rstrip (s : PyStr) : PyStr := (s.reverse.dropWhile (fun c => c ∈ stripChars)).reverse

/-- `str.strip()`. -/
def strip (s : PyStr) : PyStr := rstrip (lstrip s)

/-- `str.find(pat)` restricted to the found case: smallest index at which
`pat` starts, `none` when absent (Python returns `-1`). -/
def findSub (s pat : PyStr) : Option Nat :=
  match s with
  | [] => if pat.isPrefixOf ([] : PyStr) then some 0 else none
  | c :: rest =>
    if pat.isPrefixOf (c :: rest) then some 0
    else (findSub rest pat).map (· + 1)

/-- `pat in s` (Python substring containment). -/
def containsSub (s pat : PyStr) : Bool :=
  (findSub s pat).isSome

/-- `str.rfind("}")`: index of the last closing brace, `none` when absent. -/
def rfindBrace (s : PyStr) : Option Nat :=
  match (s.reverse.findIdx? (fun c => c = '\x7d')) with
  | none => none
  | some j => some (s.length - 1 - j)

/-- ASCII lowering, modelling `str.lower()` on the ASCII inputs used here. -/
def lower (s : PyStr) : PyStr := s.map Char.toLower

end Py

/-! ## Text Sanitizer — `src/backend/app/core/utils.py`, `sanitize_text` -/

/-- `sanitize_text(text)` from `app/core/utils.py`.  Python's
`str.isprintable` queries the Unicode tables, which are external to the
program; it is passed in as `isPrintable`.  The body mirrors the source:
an empty input short-circuits to `""`, null bytes are removed by
`text.replace("\x00", "")`, then characters are kept iff printable or one
of `\n \r \t`. -/
def sanitizeText (isPrintable : Char → Bool) (text : PyStr) : PyStr :=
  if text = [] then []
  else
    let t := text.filter (fun c => c ≠ '\x00')
    t.filter (fun c => isPrintable c || c ∈ ['\n', '\r', '\t'])

/-- A concrete printability oracle (ASCII printable range), used to
evaluate the sanitizer on concrete inputs. -/
def asciiPrintable (c : Char) : Bool := 0x20 ≤ c.toNat && c.toNat ≤ 0x7e

theorem sanitizeText_eq_filter (p : Char → Bool) (t : PyStr) :
    sanitizeText p t =
      t.filter (fun c => (c ≠ '\x00' : Bool) && (p c || c ∈ ['\n', '\r', '\t'])) := by
  unfold sanitizeText
  by_cases h : t = []
  · simp [h]
  · simp only [if_neg h, List.filter_filter]
    congr 1
    funext c
    rw [Bool.and_comm]

/-- C6: for every printability oracle and every input string, the
sanitizer's output contains no U+0000 and only characters that are
printable or one of `\n \r \t`; it is the identity on already-clean
input; and it is idempotent. -/
theorem sanitize_text_contract (p : Char → Bool) (t : PyStr) :
    '\x00' ∉ sanitizeText p t
    ∧ (∀ c ∈ sanitizeText p t, p c = true ∨ c ∈ ['\n', '\r', '\t'])
    ∧ ((∀ c ∈ t, c ≠ '\x00' ∧ (p c = true ∨ c ∈ ['\n', '\r', '\t'])) →
        sanitizeText p t = t)
    ∧ sanitizeText p (sanitizeText p t) = sanitizeText p t := by
  refine ⟨?_, ?_, ?_, ?_⟩
  · rw [sanitizeText_eq_filter]
    intro hmem
    have := List.of_mem_filter hmem
    simp at this
  · intro c hc
    rw [sanitizeText_eq_filter] at hc
    have := List.of_mem_filter hc
    simp only [Bool.and_eq_true, Bool.or_eq_true, decide_eq_true_eq] at this
    exact this.2
  · intro hclean
    rw [sanitizeText_eq_filter]
    apply List.filter_eq_self.2
    intro c hc
    rcases hclean c hc with ⟨h0, hp⟩
    simp only [Bool.and_eq_true, Bool.or_eq_true, decide_eq_true_eq]
    exact ⟨h0, hp⟩
  · rw [sanitizeText_eq_filter p t, sanitizeText_eq_filter]
    apply List.filter_eq_self.2
    intro c hc
    exact (List.mem_filter.mp hc).2

/-- C6 witness: the contract applied at the ASCII oracle and the concrete
already-clean string `"ab"`. -/
theorem sanitize_text_contract_witness :
    (∀ c ∈ (['a', 'b'] : PyStr), c ≠ '\x00' ∧ (asciiPrintable c = true ∨ c ∈ ['\n', '\r', '\t']))
    ∧ sanitizeText asciiPrintable ['a', 'b'] = ['a', 'b'] :=
  ⟨by decide, (sanitize_text_contract asciiPrintable ['a', 'b']).2.2.1 (by decide)⟩

/-! ## Repository Relevance Ranker — `src/backend/app/services/github_service.py` -/

/-- The raw repository fields read by the ranker.  `pushedDaysAgo` models
`(now - pushed_at).days` (an integer, possibly negative for a clock-skewed
future push); `none` models a missing `pushed_at`.  `description` is
`none` for a null description. -/
structure RawRepo where
  archived : Bool
  fork : Bool
  description : Option PyStr
  size : Nat
  stars : Nat
  forks : Nat
  pushedDaysAgo : Option Int
  topics : List PyStr
deriving Repr, DecidableEq

/-- Python truthiness of `repo.description` (`None` and `""` are falsy). -/
def descTruthy : Option PyStr → Bool
  | none => false
  | some s => !s.isEmpty

/-- `GitHubService._should_include_repo`. -/
def shouldIncludeRepo (repo : RawRepo) : Bool :=
  if repo.archived then false
  else if repo.fork then false
  else if !descTruthy repo.description && repo.size == 0 then false
  else true

/-- `GitHubService._calculate_repo_score`.  Every increment in the source
is a non-negative integer, so the Python float score is embedded as a
`Nat`. -/
def calculateRepoScore (repo : RawRepo) : Nat :=
  let score := 0
  let score := score + (match repo.pushedDaysAgo with
    | none => 0
    | some days =>
      if days < 30 then 50
      else if days < 90 then 30
      else if days < 180 then 15
      else 0)
  let score := score + min (repo.stars * 5) 50
  let score := score + min (repo.forks * 2) 20
  let score := score + (if descTruthy repo.description then 10 else 0)
  let score := score + (if repo.topics.isEmpty then 0 else 10)
  let score := score + (if 10 < repo.size ∧ repo.size < 100000 then 5 else 0)
  score

/-- `GitHubService.MAX_REPOS`. -/
def MAX_REPOS : Nat := 15

/-- The filter/score/sort/truncate core of
`GitHubService._fetch_repositories` (the surrounding network fetch and the
per-repo data extraction are I/O).  Python's `list.sort(key=..., reverse=True)`
is a stable descending sort, embedded as `mergeSort` with the
score-descending relation. -/
def rankRepositories (repos : List RawRepo) : List (RawRepo × Nat) :=
  let filtered := repos.filter shouldIncludeRepo
  let scored := filtered.map (fun repo => (repo, calculateRepoScore repo))
  let sorted := scored.mergeSort (fun a b => b.2 ≤ a.2)
  sorted.take MAX_REPOS

/-- The scoring example from the spec: pushed 10 days ago, 3 stars,
1 fork, a description, one topic, size 500. -/
def exampleScoredRepo : RawRepo :=
  { archived := false, fork := false, description := some ['x'], size := 500,
    stars := 3, forks := 1, pushedDaysAgo := some 10, topics := [['a']] }

/-- The stable-sort core of the ranker: the descending merge sort keeps
elements of equal score in their original relative order — restricting
both the sorted list and the input to any one score class yields the same
list.  (Python's `list.sort` documents exactly this stability.) -/
theorem mergeSort_score_class_stable (l : List (RawRepo × Nat)) (v : Nat) :
    (l.mergeSort (fun a b => b.2 ≤ a.2)).filter (fun p => p.2 == v)
      = l.filter (fun p => p.2 == v) := by
  have hmemA : ∀ p ∈ l.filter (fun p => p.2 == v), p.2 = v := fun p hp => by
    have := (List.mem_filter.mp hp).2
    simpa using this
  have hpair : (l.filter (fun p => p.2 == v)).Pairwise
      (fun a b => (decide (b.2 ≤ a.2)) = true) := by
    apply List.pairwise_of_forall_mem_list
    intro a ha b hb
    have h1 := hmemA a ha
    have h2 := hmemA b hb
    simp only [decide_eq_true_eq]
    omega
  have hsub : (l.filter (fun p => p.2 == v)).Sublist
      (l.mergeSort (fun a b => b.2 ≤ a.2)) :=
    List.sublist_mergeSort
      (fun a b c hab hbc => by simp only [decide_eq_true_eq] at *; omega)
      (fun a b => by simp only [Bool.or_eq_true, decide_eq_true_eq]; omega)
      hpair (List.filter_sublist l)
  have hidem : List.filter (fun p => p.2 == v) (l.filter (fun p => p.2 == v))
      = l.filter (fun p => p.2 == v) :=
    List.filter_eq_self.2 (fun a ha => (List.mem_filter.mp ha).2)
  have hsub3 : (l.filter (fun p => p.2 == v)).Sublist
      ((l.mergeSort (fun a b => b.2 ≤ a.2)).filter (fun p => p.2 == v)) :=
    hidem ▸ List.Sublist.filter (fun p => p.2 == v) hsub
  have hperm := List.Perm.filter (fun p => p.2 == v)
    (List.mergeSort_perm l (fun a b => b.2 ≤ a.2))
  exact (hsub3.eq_of_length hperm.length_eq.symm).symm

/-- C5: the ranker keeps only non-archived, non-fork repositories that
have a description or non-zero size; each retained repository is paired
with exactly its computed score; the output is sorted by score
descending; it is stable (an already score-descending filtered list is
returned as-is truncated, and — unconditionally, for every input — the
output is the 15-truncation of a score-descending permutation of the
filtered/scored list in which every score class keeps its original
relative order: filtering the sorted list and the filtered/scored list to
any one score yields the same list); it has at most `MAX_REPOS = 15`
entries; and the spec's worked example scores 92. -/
theorem ranker_contract (repos : List RawRepo) :
    (rankRepositories repos).length ≤ 15
    ∧ (∀ p ∈ rankRepositories repos,
        p.1 ∈ repos
        ∧ p.1.archived = false
        ∧ p.1.fork = false
        ∧ (descTruthy p.1.description = true ∨ p.1.size ≠ 0)
        ∧ p.2 = calculateRepoScore p.1)
    ∧ (rankRepositories repos).Pairwise (fun a b => b.2 ≤ a.2)
    ∧ (((repos.filter shouldIncludeRepo).map
          (fun repo => (repo, calculateRepoScore repo))).Pairwise
            (fun a b => (decide (b.2 ≤ a.2)) = true) →
        rankRepositories repos =
          ((repos.filter shouldIncludeRepo).map
            (fun repo => (repo, calculateRepoScore repo))).take 15)
    ∧ calculateRepoScore exampleScoredRepo = 92
    ∧ (∃ sorted : List (RawRepo × Nat),
        rankRepositories repos = sorted.take 15
        ∧ sorted.Perm ((repos.filter shouldIncludeRepo).map
            (fun repo => (repo, calculateRepoScore repo)))
        ∧ sorted.Pairwise (fun a b => b.2 ≤ a.2)
        ∧ ∀ v : Nat, sorted.filter (fun p => p.2 == v)
            = ((repos.filter shouldIncludeRepo).map
                (fun repo => (repo, calculateRepoScore repo))).filter
                  (fun p => p.2 == v)) := by
  have hperm := List.mergeSort_perm
    ((repos.filter shouldIncludeRepo).map (fun repo => (repo, calculateRepoScore repo)))
    (fun a b => b.2 ≤ a.2)
  refine ⟨?_, ?_, ?_, ?_, by decide, ?_⟩
  · exact List.length_take_le MAX_REPOS _
  · intro p hp
    unfold rankRepositories at hp
    have hp' := List.mem_of_mem_take hp
    have hmem := hperm.mem_iff.mp hp'
    rcases List.mem_map.mp hmem with ⟨repo, hrepo, rfl⟩
    have hfilter := List.mem_filter.mp hrepo
    have hinc : shouldIncludeRepo repo = true := hfilter.2
    unfold shouldIncludeRepo at hinc
    refine ⟨hfilter.1, ?_, ?_, ?_, rfl⟩
    · by_cases h : repo.archived
      · simp [h] at hinc
      · simpa using h
    · by_cases h : repo.archived
      · simp [h] at hinc
      · by_cases h2 : repo.fork
        · simp [h, h2] at hinc
        · simpa using h2
    · by_cases h : repo.archived
      · simp [h] at hinc
      · by_cases h2 : repo.fork
        · simp [h, h2] at hinc
        · simp only [h, h2, if_false, Bool.ite_eq_true_distrib] at hinc
          by_cases h3 : descTruthy repo.description
          · exact Or.inl h3
          · right
            intro hsize
            have hsize' : repo.size = 0 := hsize
            simp [h3, hsize'] at hinc
  · unfold rankRepositories
    apply List.Pairwise.sublist (List.take_sublist 15 _)
    have := @List.sorted_mergeSort (RawRepo × Nat)
      (fun a b => decide (b.2 ≤ a.2))
      (fun a b c hab hbc => by
        simp only [decide_eq_true_eq] at *; omega)
      (fun a b => by
        simp only [Bool.or_eq_true, decide_eq_true_eq]; omega)
      ((repos.filter shouldIncludeRepo).map (fun repo => (repo, calculateRepoScore repo)))
    exact this.imp (fun h => by simpa using h)
  · intro hsorted
    show List.take MAX_REPOS
        (((repos.filter shouldIncludeRepo).map
          (fun repo => (repo, calculateRepoScore repo))).mergeSort (fun a b => b.2 ≤ a.2)) =
      ((repos.filter shouldIncludeRepo).map (fun repo => (repo, calculateRepoScore repo))).take 15
    rw [List.mergeSort_of_sorted hsorted]
    rfl
  · refine ⟨((repos.filter shouldIncludeRepo).map
        (fun repo => (repo, calculateRepoScore repo))).mergeSort (fun a b => b.2 ≤ a.2),
      rfl, hperm, ?_, fun v => mergeSort_score_class_stable _ v⟩
    have := @List.sorted_mergeSort (RawRepo × Nat)
      (fun a b => decide (b.2 ≤ a.2))
      (fun a b c hab hbc => by
        simp only [decide_eq_true_eq] at *; omega)
      (fun a b => by
        simp only [Bool.or_eq_true, decide_eq_true_eq]; omega)
      ((repos.filter shouldIncludeRepo).map (fun repo => (repo, calculateRepoScore repo)))
    exact this.imp (fun h => by simpa using h)

/-! ## JSON values and a model of `json.loads` -/

/-- JSON values as produced by `json.loads` (Python dicts keep insertion
order; duplicate keys resolve last-wins at parse time, so an `obj` built
by the parser has unique keys).  Numbers are restricted to integers: no
value handled by the claims under study involves floats. -/
inductive Json where
  | null
  | bool (b : Bool)
  | num (n : Int)
  | str (s : PyStr)
  | arr (items : List Json)
  | obj (fields : List (PyStr × Json))
deriving Repr

mutual

/-- Structural equality on `Json`. -/
def Json.beq : Json → Json → Bool
  | .null, .null => true
  | .bool a, .bool b => a == b
  | .num a, .num b => a == b
  | .str a, .str b => a == b
  | .arr a, .arr b => Json.beqList a b
  | .obj a, .obj b => Json.beqFields a b
  | _, _ => false

def Json.beqList : List Json → List Json → Bool
  | [], [] => true
  | a :: as_, b :: bs => Json.beq a b && Json.beqList as_ bs
  | _, _ => false

def Json.beqFields : List (PyStr × Json) → List (PyStr × Json) → Bool
  | [], [] => true
  | (ka, va) :: as_, (kb, vb) :: bs => ka == kb && Json.beq va vb && Json.beqFields as_ bs
  | _, _ => false

end

/-- Python truthiness of a JSON value (`bool(x)`). -/
def pyTruthy : Json → Bool
  | .null => false
  | .bool b => b
  | .num n => n != 0
  | .str s => !s.isEmpty
  | .arr items => !items.isEmpty
  | .obj fields => !fields.isEmpty

/-- `d.get(key)` on a Python dict with unique keys (first match). -/
def jget : List (PyStr × Json) → PyStr → Option Json
  | [], _ => none
  | (k, v) :: rest, key => if k = key then some v else jget rest key

/-- `key in d`. -/
def jhas (fields : List (PyStr × Json)) (key : PyStr) : Bool :=
  (jget fields key).isSome

/-- `d.pop(key)` key removal (the value is read separately via `jget`). -/
def jremove : List (PyStr × Json) → PyStr → List (PyStr × Json)
  | [], _ => []
  | (k, v) :: rest, key => if k = key then rest else (k, v) :: jremove rest key

/-- `d[key] = v`: replace in place when the key exists, append otherwise
(Python dict insertion-order semantics). -/
def jset : List (PyStr × Json) → PyStr → Json → List (PyStr × Json)
  | [], key, v => [(key, v)]
  | (k, w) :: rest, key, v =>
    if k = key then (k, v) :: rest else (k, w) :: jset rest key v

/-- Iterating a JSON value with Python `for` semantics: arrays yield their
items, strings their characters, dicts their keys; other values raise
`TypeError` (`none`). -/
def pyIterate : Json → Option (List Json)
  | .arr items => some items
  | .str s => some (s.map (fun c => Json.str [c]))
  | .obj fields => some (fields.map (fun kv => Json.str kv.1))
  | _ => none

/-! A recursive-descent model of `json.loads` on the integer fragment of
JSON (objects, arrays, strings with the standard escapes, integers,
`true`/`false`/`null`); fuel-driven, with fuel chosen large enough for
every input.  It is used to evaluate the recovery pipeline on concrete
responses; the recovery theorems themselves quantify over the parse
function. -/

/-- JSON inter-token whitespace. -/
def jsonWs (c : Char) : Bool := c = ' ' || c = '\t' || c = '\n' || c = '\r'

def skipJsonWs (s : PyStr) : PyStr := s.dropWhile jsonWs

def hexVal (c : Char) : Option Nat :=
  if '0' ≤ c ∧ c ≤ '9' then some (c.toNat - 48)
  else if 'a' ≤ c ∧ c ≤ 'f' then some (c.toNat - 87)
  else if 'A' ≤ c ∧ c ≤ 'F' then some (c.toNat - 55)
  else none

/-- Parse the body of a JSON string (after the opening quote), returning
the decoded characters and the remainder after the closing quote. -/
def parseJsonStr : PyStr → Option (PyStr × PyStr)
  | [] => none
  | '"' :: rest => some ([], rest)
  | '\\' :: esc :: rest =>
    let simple : Char → Option Char := fun c =>
      if c = '"' then some '"'
      else if c = '\\' then some '\\'
      else if c = '/' then some '/'
      else if c = 'b' then some '\x08'
      else if c = 'f' then some '\x0c'
      else if c = 'n' then some '\n'
      else if c = 'r' then some '\r'
      else if c = 't' then some '\t'
      else none
    (match simple esc with
     | some c => (parseJsonStr rest).map (fun p => (c :: p.1, p.2))
     | none =>
       if esc = 'u' then
         match rest with
         | h1 :: h2 :: h3 :: h4 :: rest4 =>
           match hexVal h1, hexVal h2, hexVal h3, hexVal h4 with
           | some a, some b, some c, some d =>
             let n := ((a * 16 + b) * 16 + c) * 16 + d
             if n < 0xd800 ∨ 0xe000 ≤ n then
               (parseJsonStr rest4).map (fun p => (Char.ofNat n :: p.1, p.2))
             else none
           | _, _, _, _ => none
         | _ => none
       else none)
  | c :: rest =>
    if c.toNat < 0x20 then none
    else (parseJsonStr rest).map (fun p => (c :: p.1, p.2))

def digitsToNat (ds : PyStr) : Nat :=
  ds.foldl (fun acc c => acc * 10 + (c.toNat - 48)) 0

/-- Parse a JSON integer literal (sign, digits, no leading zeros); fails on
a fraction or exponent, which the embedding does not cover. -/
def parseJsonNum (s : PyStr) : Option (Int × PyStr) :=
  let (neg, s1) : Bool × PyStr := match s with
    | '-' :: rest => (true, rest)
    | _ => (false, s)
  let digits := s1.takeWhile Char.isDigit
  let rest := s1.dropWhile Char.isDigit
  if digits.isEmpty then none
  else if digits.length > 1 ∧ digits.head? = some '0' then none
  else match rest with
    | '.' :: _ => none
    | 'e' :: _ => none
    | 'E' :: _ => none
    | _ =>
      let n : Int := Int.ofNat (digitsToNat digits)
      some (if neg then -n else n, rest)

/-- The three intertwined parsing jobs (one JSON value, the items of a
non-empty array, the members of a non-empty object), merged into one
fuel-indexed function so the recursion is structural on the fuel and so
reduces definitionally on concrete inputs. -/
inductive JsonJob where
  | value (s : PyStr)
  | arrItems (s : PyStr) (acc : List Json)
  | objItems (s : PyStr) (acc : List (PyStr × Json))

/-- Parse a job; returns the parsed value and the unconsumed suffix.
Object members with repeated keys overwrite (last wins), as in a Python
dict built by insertion. -/
def parseJson : Nat → JsonJob → Option (Json × PyStr)
  | 0, _ => none
  | fuel + 1, .value s =>
    (match skipJsonWs s with
     | [] => none
     | c :: rest =>
       if c = 'n' then
         match rest with
         | 'u' :: 'l' :: 'l' :: r => some (.null, r)
         | _ => none
       else if c = 't' then
         match rest with
         | 'r' :: 'u' :: 'e' :: r => some (.bool true, r)
         | _ => none
       else if c = 'f' then
         match rest with
         | 'a' :: 'l' :: 's' :: 'e' :: r => some (.bool false, r)
         | _ => none
       else if c = '"' then
         (parseJsonStr rest).map (fun p => (.str p.1, p.2))
       else if c = '[' then
         match skipJsonWs rest with
         | ']' :: r => some (.arr [], r)
         | r => parseJson fuel (.arrItems r [])
       else if c = '\x7b' then
         match skipJsonWs rest with
         | '\x7d' :: r => some (.obj [], r)
         | r => parseJson fuel (.objItems r [])
       else
         (parseJsonNum (c :: rest)).map (fun p => (.num p.1, p.2)))
  | fuel + 1, .arrItems s acc =>
    (match parseJson fuel (.value s) with
     | none => none
     | some (v, rest) =>
       match skipJsonWs rest with
       | ',' :: r => parseJson fuel (.arrItems r (acc ++ [v]))
       | ']' :: r => some (.arr (acc ++ [v]), r)
       | _ => none)
  | fuel + 1, .objItems s acc =>
    (match skipJsonWs s with
     | '"' :: rest =>
       match parseJsonStr rest with
       | none => none
       | some (key, rest1) =>
         match skipJsonWs rest1 with
         | ':' :: rest2 =>
           match parseJson fuel (.value rest2) with
           | none => none
           | some (v, rest3) =>
             match skipJsonWs rest3 with
             | ',' :: r => parseJson fuel (.objItems r (jset acc key v))
             | '\x7d' :: r => some (.obj (jset acc key v), r)
             | _ => none
         | _ => none
     | _ => none)

/-- `json.loads`: parse one value and require only whitespace after it. -/
def jsonParse (s : PyStr) : Option Json :=
  match parseJson (2 * s.length + 8) (.value s) with
  | none => none
  | some (v, rest) => if skipJsonWs rest = [] then some v else none

/-! ## LLM response recovery — `src/backend/app/services/llm_service.py` -/

/-- The fence-stripping step of `LLMService.structure_resume`
(lines 219-225): strip, remove a leading ` ```json ` fence and a trailing
` ``` ` fence when present, strip again. -/
def cleanLLMContent (content : PyStr) : PyStr :=
  let c := Py.strip content
  let c := if ("```json".toList).isPrefixOf c then c.drop 7 else c
  let c := if ("```".toList).isSuffixOf c then c.take (c.length - 3) else c
  Py.strip c

/-- The recovery anchors of `LLMService._attempt_json_repair`, in source
order: `{"structured_resume":`, `"structured_resume":`, `{`. -/
def repairMarkers : List PyStr :=
  ["\x7b\"structured_resume\":".toList, "\"structured_resume\":".toList, "\x7b".toList]

/-- One iteration of the marker loop in `_attempt_json_repair`: locate the
marker, slice up to (and including) the last `}`, prepend a `{` when the
slice does not start with one.  `none` when the marker is absent or the
slice is empty (`end <= start`). -/
def repairCandidate (content : PyStr) (marker : PyStr) : Option PyStr :=
  match Py.findSub content marker with
  | none => none
  | some start =>
    match Py.rfindBrace content with
    | none => none
    | some last =>
      if start ≤ last then
        let candidate := (content.drop start).take (last + 1 - start)
        some (if ("\x7b".toList).isPrefixOf candidate then candidate
              else '\x7b' :: candidate)
      else none

/-- `LLMService._attempt_json_repair`: try the markers in order, return
the first slice that parses; `none` models the final
`ValueError("Could not extract valid JSON from LLM response")`. -/
def attemptJsonRepair (parse : PyStr → Option Json) (content : PyStr) : Option Json :=
  let rec loop : List PyStr → Option Json
    | [] => none
    | marker :: rest =>
      match (repairCandidate content marker).bind parse with
      | some v => some v
      | none => loop rest
  loop repairMarkers

/-- The JSON-extraction phase of the response path: the fence stripping in
`structure_resume` followed by the direct-parse / repair split at the top
of `_parse_response`. -/
def recoverJson (parse : PyStr → Option Json) (raw : PyStr) : Option Json :=
  let content := cleanLLMContent raw
  match parse content with
  | some v => some v
  | none => attemptJsonRepair parse content

/-- Modelled from the spec (section 4.7): recovery as an ordered list of
independent strategies — direct parse first, then one strategy per anchor
(`{"structured_resume":`, `"structured_resume":`, then the first `{`),
each slicing from the anchor to the last `}` and prepending `{` when the
slice does not start with one; the first strategy to succeed wins, and
`none` (the terminal `ResponseRecoveryError`) results when all fail. -/
def specRecoverStrategies (parse : PyStr → Option Json) (text : PyStr) :
    List (Option Json) :=
  [parse text,
   (repairCandidate text ("\x7b\"structured_resume\":".toList)).bind parse,
   (repairCandidate text ("\"structured_resume\":".toList)).bind parse,
   (repairCandidate text ("\x7b".toList)).bind parse]

/-- First success of an ordered strategy list. -/
def firstSome : List (Option Json) → Option Json
  | [] => none
  | some v :: _ => some v
  | none :: rest => firstSome rest

/-- Spec-side recovery: strategies in the spec's priority order over the
fence-stripped text. -/
def specRecoverJson (parse : PyStr → Option Json) (raw : PyStr) : Option Json :=
  firstSome (specRecoverStrategies parse (cleanLLMContent raw))

/-- The spec's anchor-recovery example input:
`Here is the result {"structured_resume": {"contact":{}}} and some trailing notes`. -/
def exampleNoisyResponse : PyStr :=
  ("Here is the result \x7b\"structured_resume\": \x7b\"contact\":\x7b\x7d\x7d\x7d and some trailing notes").toList

/-- The JSON object the spec expects the example to recover. -/
def exampleRecoveredJson : Json :=
  .obj [("structured_resume".toList, .obj [("contact".toList, .obj [])])]

/-- C3: for every parse function and every raw response, the code's
recovery path (fence stripping, direct parse, then the marker loop of
`_attempt_json_repair`) computes exactly the spec's ordered-strategy
recovery: direct parse first, then the anchors `{"structured_resume":`,
`"structured_resume":`, `{` in that order, each slicing from the anchor
to the last `}` and prepending `{` when needed, with `none` (the terminal
recovery error) when every strategy fails; and the spec's worked example
recovers `{"structured_resume": {"contact": {}}}`. -/
theorem response_recovery_order (parse : PyStr → Option Json) (raw : PyStr) :
    recoverJson parse raw = specRecoverJson parse raw
    ∧ recoverJson jsonParse exampleNoisyResponse = some exampleRecoveredJson := by
  constructor
  · unfold recoverJson specRecoverJson specRecoverStrategies attemptJsonRepair
    cases hdirect : parse (cleanLLMContent raw) with
    | some v => simp [firstSome, hdirect]
    | none =>
      simp only [attemptJsonRepair.loop, repairMarkers, firstSome, hdirect]
      cases h1 : (repairCandidate (cleanLLMContent raw)
          ("\x7b\"structured_resume\":".toList)).bind parse with
      | some v => simp [firstSome, h1]
      | none =>
        simp only [firstSome, h1]
        cases h2 : (repairCandidate (cleanLLMContent raw)
            ("\"structured_resume\":".toList)).bind parse with
        | some v => simp [firstSome, h2]
        | none =>
          simp only [firstSome, h2]
          cases h3 : (repairCandidate (cleanLLMContent raw)
              ("\x7b".toList)).bind parse with
          | some v => simp [firstSome, h3, attemptJsonRepair.loop]
          | none => simp [firstSome, h3, attemptJsonRepair.loop]
  · rfl

/-- C5 witness: the contract's stability clause applied to the concrete
one-repository list, whose filtered/scored form is trivially sorted. -/
theorem ranker_contract_witness :
    (((([exampleScoredRepo] : List RawRepo).filter shouldIncludeRepo).map
        (fun repo => (repo, calculateRepoScore repo))).Pairwise
          (fun a b => (decide (b.2 ≤ a.2)) = true))
    ∧ rankRepositories [exampleScoredRepo] =
        ((([exampleScoredRepo] : List RawRepo).filter shouldIncludeRepo).map
          (fun repo => (repo, calculateRepoScore repo))).take 15 :=
  ⟨by decide, (ranker_contract [exampleScoredRepo]).2.2.2.1 (by decide)⟩

/-! ## Schema Reconciler — `LLMService._normalize_schema` -/

def kStructuredResume : PyStr := "structured_resume".toList
def kDecisionLog : PyStr := "decision_log".toList
def kExperience : PyStr := "experience".toList
def kEducation : PyStr := "education".toList
def kProjects : PyStr := "projects".toList
def kRole : PyStr := "role".toList
def kTitle : PyStr := "title".toList
def kOrganization : PyStr := "organization".toList
def kCompany : PyStr := "company".toList
def kDescription : PyStr := "description".toList
def kInstitution : PyStr := "institution".toList
def kSchool : PyStr := "school".toList
def kUniversity : PyStr := "university".toList
def kHighlights : PyStr := "highlights".toList
def kAchievements : PyStr := "achievements".toList
def kBullets : PyStr := "bullets".toList

theorem jget_jset_self (l : List (PyStr × Json)) (k : PyStr) (v : Json) :
    jget (jset l k v) k = some v := by
  induction l with
  | nil => simp [jset, jget]
  | cons hd tl ih =>
    by_cases h : hd.1 = k
    · simp [jset, jget, h]
    · simp [jset, jget, h, ih]

theorem jget_jset_ne (l : List (PyStr × Json)) (k : PyStr) (v : Json) (k' : PyStr)
    (h : k ≠ k') : jget (jset l k v) k' = jget l k' := by
  induction l with
  | nil => simp [jset, jget, h]
  | cons hd tl ih =>
    have h2 : ¬k' = k := fun hh2 => h hh2.symm
    by_cases hh : hd.1 = k
    · have h1 : ¬hd.1 = k' := by rw [hh]; exact h
      simp [jset, jget, hh, h1, h]
    · by_cases hk' : hd.1 = k'
      · simp [jset, jget, hh, hk', h2]
      · simp [jset, jget, hh, hk', ih]

theorem jget_jremove_ne (l : List (PyStr × Json)) (k k' : PyStr) (h : k ≠ k') :
    jget (jremove l k) k' = jget l k' := by
  induction l with
  | nil => simp [jremove, jget]
  | cons hd tl ih =>
    have h2 : ¬k' = k := fun hh2 => h hh2.symm
    by_cases hh : hd.1 = k
    · have h1 : ¬hd.1 = k' := by rw [hh]; exact h
      simp [jremove, jget, hh, h1, h]
    · by_cases hk' : hd.1 = k'
      · simp [jremove, jget, hh, hk', h2]
      · simp [jremove, jget, hh, hk', ih]

theorem jget_eq_none_of_not_mem (l : List (PyStr × Json)) (k : PyStr)
    (h : k ∉ l.map Prod.fst) : jget l k = none := by
  induction l with
  | nil => simp [jget]
  | cons hd tl ih =>
    simp only [List.map_cons, List.mem_cons] at h
    push_neg at h
    have : ¬hd.1 = k := fun hh => h.1 hh.symm
    simp [jget, this, ih h.2]

theorem jget_jremove_self (l : List (PyStr × Json)) (k : PyStr)
    (hnodup : (l.map Prod.fst).Nodup) : jget (jremove l k) k = none := by
  induction l with
  | nil => simp [jremove, jget]
  | cons hd tl ih =>
    simp only [List.map_cons, List.nodup_cons] at hnodup
    by_cases hh : hd.1 = k
    · simp only [jremove, hh, if_true]
      exact jget_eq_none_of_not_mem tl k (hh ▸ hnodup.1)
    · simp [jremove, jget, hh, ih hnodup.2]

theorem keys_jremove_sublist (l : List (PyStr × Json)) (k : PyStr) :
    ((jremove l k).map Prod.fst).Sublist (l.map Prod.fst) := by
  induction l with
  | nil => simp [jremove]
  | cons hd tl ih =>
    by_cases hh : hd.1 = k
    · simp only [jremove, hh, if_true, List.map_cons]
      exact (List.sublist_cons_self _ _)
    · simp only [jremove, hh, if_false, List.map_cons]
      exact ih.cons₂ hd.1

theorem nodup_jremove (l : List (PyStr × Json)) (k : PyStr)
    (h : (l.map Prod.fst).Nodup) : ((jremove l k).map Prod.fst).Nodup :=
  h.sublist (keys_jremove_sublist l k)

theorem mem_keys_jset (l : List (PyStr × Json)) (k : PyStr) (v : Json) (x : PyStr)
    (h : x ∈ (jset l k v).map Prod.fst) : x ∈ l.map Prod.fst ∨ x = k := by
  induction l with
  | nil => simpa [jset] using h
  | cons hd tl ih =>
    by_cases hh : hd.1 = k
    · simp only [jset, hh, if_true, List.map_cons, List.mem_cons] at h ⊢
      tauto
    · simp only [jset, hh, if_false, List.map_cons, List.mem_cons] at h ⊢
      rcases h with h | h
      · tauto
      · rcases ih h with h' | h' <;> tauto

theorem nodup_jset (l : List (PyStr × Json)) (k : PyStr) (v : Json)
    (h : (l.map Prod.fst).Nodup) : ((jset l k v).map Prod.fst).Nodup := by
  induction l with
  | nil => simp [jset]
  | cons hd tl ih =>
    simp only [List.map_cons, List.nodup_cons] at h
    by_cases hh : hd.1 = k
    · simp only [jset, hh, if_true, List.map_cons, List.nodup_cons]
      exact ⟨hh ▸ h.1, h.2⟩
    · simp only [jset, hh, if_false, List.map_cons, List.nodup_cons]
      refine ⟨fun hmem => ?_, ih h.2⟩
      rcases mem_keys_jset tl k v hd.1 hmem with h' | h'
      · exact h.1 h'
      · exact hh h'

/-- `entry[dst] = entry.pop(src)`: read the source key's value, delete the
key, store the value under the destination key (appended, since the
callers guard on the destination being absent). -/
def popAssign (e : List (PyStr × Json)) (src dst : PyStr) : List (PyStr × Json) :=
  match jget e src with
  | none => e
  | some v => jset (jremove e src) dst v

/-- The guarded alias rewrite used throughout `_normalize_schema`:
`if dst not in entry and src in entry: entry[dst] = entry.pop(src)`. -/
def renameAlias (e : List (PyStr × Json)) (src dst : PyStr) : List (PyStr × Json) :=
  if !jhas e dst && jhas e src then popAssign e src dst else e

/-- The string-description coercion of the experience pass:
`if "description" in entry and isinstance(entry["description"], str):
entry["description"] = [entry["description"]]`. -/
def wrapDescription (e : List (PyStr × Json)) : List (PyStr × Json) :=
  match jget e kDescription with
  | some (.str s) => jset e kDescription (.arr [.str s])
  | _ => e

/-- The experience-entry pass of `_normalize_schema`: `title`→`role` and
`company`→`organization` when the canonical key is absent, and a string
`description` wrapped into a one-element list. -/
def normalizeExperienceEntry (e : List (PyStr × Json)) : List (PyStr × Json) :=
  wrapDescription (renameAlias (renameAlias e kTitle kRole) kCompany kOrganization)

/-- The education-entry pass: `school`→`institution` then
`university`→`institution`, each only when `institution` is absent. -/
def normalizeEducationEntry (e : List (PyStr × Json)) : List (PyStr × Json) :=
  renameAlias (renameAlias e kSchool kInstitution) kUniversity kInstitution

/-- The project-entry pass: `achievements`→`highlights` then
`bullets`→`highlights`, each only when `highlights` is absent. -/
def normalizeProjectEntry (e : List (PyStr × Json)) : List (PyStr × Json) :=
  renameAlias (renameAlias e kAchievements kHighlights) kBullets kHighlights

/-- One section loop of `_normalize_schema`: `resume.get(key, [])` must be
a list (`isinstance(..., list)`) for the loop to run, and non-dict entries
are skipped (`continue`). -/
def normalizeSection (resume : List (PyStr × Json)) (key : PyStr)
    (f : List (PyStr × Json) → List (PyStr × Json)) : List (PyStr × Json) :=
  match jget resume key with
  | some (.arr entries) =>
    jset resume key (.arr (entries.map (fun entry =>
      match entry with
      | .obj fields => .obj (f fields)
      | other => other)))
  | _ => resume

/-- The three section passes over the `structured_resume` dict. -/
def normalizeResumeObj (resume : List (PyStr × Json)) : List (PyStr × Json) :=
  let r1 := normalizeSection resume kExperience normalizeExperienceEntry
  let r2 := normalizeSection r1 kEducation normalizeEducationEntry
  normalizeSection r2 kProjects normalizeProjectEntry

/-- `_normalize_schema` applied to the value of `structured_resume`:
a falsy value (`{}`, `[]`, `""`, `0`, `None`, `False`) short-circuits with
the data unchanged; a truthy non-dict raises (`none`, an `AttributeError`
on `.get`); a dict gets the three section passes. -/
def normalizeResumeVal (v : Json) : Option Json :=
  if pyTruthy v = false then some v
  else match v with
    | .obj fields => some (.obj (normalizeResumeObj fields))
    | _ => none

/-- `LLMService._normalize_schema(data)`: reads
`data.get("structured_resume", {})` and mutates it in place; a non-dict
`data` raises (`none`). -/
def normalizeSchema : Json → Option Json
  | .obj fields =>
    (match jget fields kStructuredResume with
     | none => some (.obj fields)
     | some resume =>
       match normalizeResumeVal resume with
       | none => none
       | some resume' => some (.obj (jset fields kStructuredResume resume')))
  | _ => none

theorem jget_popAssign_dst (e : List (PyStr × Json)) (src dst : PyStr) (v : Json)
    (hv : jget e src = some v) : jget (popAssign e src dst) dst = some v := by
  unfold popAssign
  rw [hv]
  exact jget_jset_self _ _ _

theorem jget_popAssign_src (e : List (PyStr × Json)) (src dst : PyStr) (v : Json)
    (hv : jget e src = some v) (hne : dst ≠ src)
    (hnodup : (e.map Prod.fst).Nodup) : jget (popAssign e src dst) src = none := by
  unfold popAssign
  rw [hv, jget_jset_ne _ _ _ _ hne]
  exact jget_jremove_self e src hnodup

theorem jget_popAssign_other (e : List (PyStr × Json)) (src dst k : PyStr)
    (h1 : src ≠ k) (h2 : dst ≠ k) : jget (popAssign e src dst) k = jget e k := by
  unfold popAssign
  cases hv : jget e src with
  | none => rfl
  | some v => rw [jget_jset_ne _ _ _ _ h2, jget_jremove_ne _ _ _ h1]

theorem nodup_popAssign (e : List (PyStr × Json)) (src dst : PyStr)
    (hnodup : (e.map Prod.fst).Nodup) :
    ((popAssign e src dst).map Prod.fst).Nodup := by
  unfold popAssign
  cases hv : jget e src with
  | none => exact hnodup
  | some v => exact nodup_jset _ _ _ (nodup_jremove _ _ hnodup)

theorem renameAlias_of_dst_present (e : List (PyStr × Json)) (src dst : PyStr)
    (h : jhas e dst = true) : renameAlias e src dst = e := by
  unfold renameAlias
  simp [h]

theorem renameAlias_of_src_absent (e : List (PyStr × Json)) (src dst : PyStr)
    (h : jhas e src = false) : renameAlias e src dst = e := by
  unfold renameAlias
  simp [h]

theorem renameAlias_hit (e : List (PyStr × Json)) (src dst : PyStr) (v : Json)
    (hdst : jhas e dst = false) (hsrc : jget e src = some v) :
    renameAlias e src dst = popAssign e src dst := by
  unfold renameAlias
  have : jhas e src = true := by simp [jhas, hsrc]
  simp [hdst, this]

theorem jget_renameAlias_other (e : List (PyStr × Json)) (src dst k : PyStr)
    (h1 : src ≠ k) (h2 : dst ≠ k) : jget (renameAlias e src dst) k = jget e k := by
  unfold renameAlias
  by_cases h : (!jhas e dst && jhas e src) = true
  · rw [if_pos h]
    exact jget_popAssign_other e src dst k h1 h2
  · rw [if_neg h]

theorem jhas_renameAlias_other (e : List (PyStr × Json)) (src dst k : PyStr)
    (h1 : src ≠ k) (h2 : dst ≠ k) : jhas (renameAlias e src dst) k = jhas e k := by
  unfold jhas
  rw [jget_renameAlias_other e src dst k h1 h2]

theorem nodup_renameAlias (e : List (PyStr × Json)) (src dst : PyStr)
    (hnodup : (e.map Prod.fst).Nodup) :
    ((renameAlias e src dst).map Prod.fst).Nodup := by
  unfold renameAlias
  by_cases h : (!jhas e dst && jhas e src) = true
  · rw [if_pos h]; exact nodup_popAssign e src dst hnodup
  · rw [if_neg h]; exact hnodup

theorem jget_wrapDescription_other (e : List (PyStr × Json)) (k : PyStr)
    (h : kDescription ≠ k) : jget (wrapDescription e) k = jget e k := by
  unfold wrapDescription
  cases hd : jget e kDescription with
  | none => rfl
  | some w => cases w <;> first
    | rfl
    | exact jget_jset_ne _ _ _ _ h

theorem jhas_wrapDescription_other (e : List (PyStr × Json)) (k : PyStr)
    (h : kDescription ≠ k) : jhas (wrapDescription e) k = jhas e k := by
  unfold jhas
  rw [jget_wrapDescription_other e k h]

/-- The spec's reconciler example entry:
`{"title": "Engineer", "company": "Acme", "description": "Did X"}`. -/
def exampleExperienceEntry : List (PyStr × Json) :=
  [(kTitle, .str "Engineer".toList), (kCompany, .str "Acme".toList),
   (kDescription, .str "Did X".toList)]

/-- C4: on any entry dict (unique keys, as `json.loads` guarantees), the
reconciler renames `title`→`role` and `company`→`organization` only when
the canonical key is absent, wraps a string experience `description` into
a one-element list and leaves non-string descriptions alone, applies
`school`→`institution` then `university`→`institution` (first match wins)
and `achievements`→`highlights` then `bullets`→`highlights`, never
overwrites a canonical key that is present, touches no other key, is a
no-op when `structured_resume` is absent, and maps the spec's example
entry to `{"role": "Engineer", "organization": "Acme",
"description": ["Did X"]}`. -/
theorem schema_reconciler_contract
    (e : List (PyStr × Json)) (hnodup : (e.map Prod.fst).Nodup) :
    (∀ v, jhas e kRole = false → jget e kTitle = some v →
      jget (normalizeExperienceEntry e) kRole = some v
      ∧ jhas (normalizeExperienceEntry e) kTitle = false)
    ∧ (∀ w, jget e kRole = some w →
      jget (normalizeExperienceEntry e) kRole = some w
      ∧ jget (normalizeExperienceEntry e) kTitle = jget e kTitle)
    ∧ (∀ v, jhas e kOrganization = false → jget e kCompany = some v →
      jget (normalizeExperienceEntry e) kOrganization = some v
      ∧ jhas (normalizeExperienceEntry e) kCompany = false)
    ∧ (∀ w, jget e kOrganization = some w →
      jget (normalizeExperienceEntry e) kOrganization = some w
      ∧ jget (normalizeExperienceEntry e) kCompany = jget e kCompany)
    ∧ (∀ s, jget e kDescription = some (.str s) →
      jget (normalizeExperienceEntry e) kDescription = some (.arr [.str s]))
    ∧ (∀ v, jget e kDescription = some v → (∀ s, v ≠ .str s) →
      jget (normalizeExperienceEntry e) kDescription = some v)
    ∧ (∀ k, k ≠ kRole → k ≠ kTitle → k ≠ kOrganization → k ≠ kCompany →
      k ≠ kDescription → jget (normalizeExperienceEntry e) k = jget e k)
    ∧ (∀ v, jhas e kInstitution = false → jget e kSchool = some v →
      jget (normalizeEducationEntry e) kInstitution = some v
      ∧ jhas (normalizeEducationEntry e) kSchool = false
      ∧ jget (normalizeEducationEntry e) kUniversity = jget e kUniversity)
    ∧ (∀ v, jhas e kInstitution = false → jhas e kSchool = false →
      jget e kUniversity = some v →
      jget (normalizeEducationEntry e) kInstitution = some v
      ∧ jhas (normalizeEducationEntry e) kUniversity = false)
    ∧ (∀ w, jget e kInstitution = some w → normalizeEducationEntry e = e)
    ∧ (∀ v, jhas e kHighlights = false → jget e kAchievements = some v →
      jget (normalizeProjectEntry e) kHighlights = some v
      ∧ jhas (normalizeProjectEntry e) kAchievements = false
      ∧ jget (normalizeProjectEntry e) kBullets = jget e kBullets)
    ∧ (∀ v, jhas e kHighlights = false → jhas e kAchievements = false →
      jget e kBullets = some v →
      jget (normalizeProjectEntry e) kHighlights = some v
      ∧ jhas (normalizeProjectEntry e) kBullets = false)
    ∧ (∀ w, jget e kHighlights = some w → normalizeProjectEntry e = e)
    ∧ (∀ fields : List (PyStr × Json), jhas fields kStructuredResume = false →
      normalizeSchema (.obj fields) = some (.obj fields))
    ∧ (jget (normalizeExperienceEntry exampleExperienceEntry) kRole
        = some (.str "Engineer".toList)
      ∧ jget (normalizeExperienceEntry exampleExperienceEntry) kOrganization
        = some (.str "Acme".toList)
      ∧ jget (normalizeExperienceEntry exampleExperienceEntry) kDescription
        = some (.arr [.str "Did X".toList])
      ∧ jhas (normalizeExperienceEntry exampleExperienceEntry) kTitle = false
      ∧ jhas (normalizeExperienceEntry exampleExperienceEntry) kCompany = false) := by
  refine ⟨?_, ?_, ?_, ?_, ?_, ?_, ?_, ?_, ?_, ?_, ?_, ?_, ?_, ?_, ?_⟩
  · -- title→role when role absent
    intro v hR hT
    have h1 := renameAlias_hit e kTitle kRole v hR hT
    unfold normalizeExperienceEntry
    constructor
    · rw [jget_wrapDescription_other _ _ (by decide),
        jget_renameAlias_other _ _ _ _ (by decide) (by decide), h1]
      exact jget_popAssign_dst e kTitle kRole v hT
    · rw [jhas_wrapDescription_other _ _ (by decide),
        jhas_renameAlias_other _ _ _ _ (by decide) (by decide), h1]
      unfold jhas
      rw [jget_popAssign_src e kTitle kRole v hT (by decide) hnodup]
      rfl
  · -- role already present is never overwritten
    intro w hR
    have h1 : renameAlias e kTitle kRole = e :=
      renameAlias_of_dst_present e kTitle kRole (by simp [jhas, hR])
    unfold normalizeExperienceEntry
    rw [h1]
    constructor
    · rw [jget_wrapDescription_other _ _ (by decide),
        jget_renameAlias_other _ _ _ _ (by decide) (by decide)]
      exact hR
    · rw [jget_wrapDescription_other _ _ (by decide),
        jget_renameAlias_other _ _ _ _ (by decide) (by decide)]
  · -- company→organization when organization absent
    intro v hO hC
    unfold normalizeExperienceEntry
    have hC1 : jget (renameAlias e kTitle kRole) kCompany = some v := by
      rw [jget_renameAlias_other _ _ _ _ (by decide) (by decide)]; exact hC
    have hO1 : jhas (renameAlias e kTitle kRole) kOrganization = false := by
      rw [jhas_renameAlias_other _ _ _ _ (by decide) (by decide)]; exact hO
    have h2 := renameAlias_hit (renameAlias e kTitle kRole) kCompany kOrganization v hO1 hC1
    have hnodup1 := nodup_renameAlias e kTitle kRole hnodup
    constructor
    · rw [jget_wrapDescription_other _ _ (by decide), h2]
      exact jget_popAssign_dst _ kCompany kOrganization v hC1
    · rw [jhas_wrapDescription_other _ _ (by decide), h2]
      unfold jhas
      rw [jget_popAssign_src _ kCompany kOrganization v hC1 (by decide) hnodup1]
      rfl
  · -- organization already present is never overwritten
    intro w hO
    unfold normalizeExperienceEntry
    have hO1 : jget (renameAlias e kTitle kRole) kOrganization = some w := by
      rw [jget_renameAlias_other _ _ _ _ (by decide) (by decide)]; exact hO
    have h2 : renameAlias (renameAlias e kTitle kRole) kCompany kOrganization
        = renameAlias e kTitle kRole :=
      renameAlias_of_dst_present _ kCompany kOrganization (by simp [jhas, hO1])
    rw [h2]
    constructor
    · rw [jget_wrapDescription_other _ _ (by decide)]
      exact hO1
    · rw [jget_wrapDescription_other _ _ (by decide),
        jget_renameAlias_other _ _ _ _ (by decide) (by decide)]
  · -- string description wrapped into a one-element list
    intro s hD
    unfold normalizeExperienceEntry
    have hD2 : jget (renameAlias (renameAlias e kTitle kRole) kCompany kOrganization)
        kDescription = some (.str s) := by
      rw [jget_renameAlias_other _ _ _ _ (by decide) (by decide),
        jget_renameAlias_other _ _ _ _ (by decide) (by decide)]
      exact hD
    unfold wrapDescription
    rw [hD2]
    exact jget_jset_self _ _ _
  · -- non-string description left alone
    intro v hD hns
    unfold normalizeExperienceEntry
    have hD2 : jget (renameAlias (renameAlias e kTitle kRole) kCompany kOrganization)
        kDescription = some v := by
      rw [jget_renameAlias_other _ _ _ _ (by decide) (by decide),
        jget_renameAlias_other _ _ _ _ (by decide) (by decide)]
      exact hD
    unfold wrapDescription
    rw [hD2]
    cases v with
    | str s => exact absurd rfl (hns s)
    | null => exact hD2
    | bool b => exact hD2
    | num n => exact hD2
    | arr items => exact hD2
    | obj fields => exact hD2
  · -- all other keys untouched
    intro k hkR hkT hkO hkC hkD
    unfold normalizeExperienceEntry
    rw [jget_wrapDescription_other _ _ (fun h => hkD h.symm),
      jget_renameAlias_other _ _ _ _ (fun h => hkC h.symm) (fun h => hkO h.symm),
      jget_renameAlias_other _ _ _ _ (fun h => hkT h.symm) (fun h => hkR h.symm)]
  · -- school→institution first
    intro v hI hS
    have h1 := renameAlias_hit e kSchool kInstitution v hI hS
    unfold normalizeEducationEntry
    have hI1 : jget (renameAlias e kSchool kInstitution) kInstitution = some v := by
      rw [h1]; exact jget_popAssign_dst e kSchool kInstitution v hS
    have h2 : renameAlias (renameAlias e kSchool kInstitution) kUniversity kInstitution
        = renameAlias e kSchool kInstitution :=
      renameAlias_of_dst_present _ kUniversity kInstitution (by simp [jhas, hI1])
    rw [h2]
    refine ⟨hI1, ?_, ?_⟩
    · unfold jhas
      rw [h1, jget_popAssign_src e kSchool kInstitution v hS (by decide) hnodup]
      rfl
    · rw [h1]
      exact jget_popAssign_other e kSchool kInstitution kUniversity (by decide) (by decide)
  · -- university→institution only when school did not match
    intro v hI hS hU
    unfold normalizeEducationEntry
    have h1 : renameAlias e kSchool kInstitution = e :=
      renameAlias_of_src_absent e kSchool kInstitution hS
    rw [h1]
    have h2 := renameAlias_hit e kUniversity kInstitution v hI hU
    rw [h2]
    refine ⟨jget_popAssign_dst e kUniversity kInstitution v hU, ?_⟩
    unfold jhas
    rw [jget_popAssign_src e kUniversity kInstitution v hU (by decide) hnodup]
    rfl
  · -- institution already present: education entry unchanged
    intro w hI
    unfold normalizeEducationEntry
    have h1 : renameAlias e kSchool kInstitution = e :=
      renameAlias_of_dst_present e kSchool kInstitution (by simp [jhas, hI])
    rw [h1]
    exact renameAlias_of_dst_present e kUniversity kInstitution (by simp [jhas, hI])
  · -- achievements→highlights first
    intro v hH hA
    have h1 := renameAlias_hit e kAchievements kHighlights v hH hA
    unfold normalizeProjectEntry
    have hH1 : jget (renameAlias e kAchievements kHighlights) kHighlights = some v := by
      rw [h1]; exact jget_popAssign_dst e kAchievements kHighlights v hA
    have h2 : renameAlias (renameAlias e kAchievements kHighlights) kBullets kHighlights
        = renameAlias e kAchievements kHighlights :=
      renameAlias_of_dst_present _ kBullets kHighlights (by simp [jhas, hH1])
    rw [h2]
    refine ⟨hH1, ?_, ?_⟩
    · unfold jhas
      rw [h1, jget_popAssign_src e kAchievements kHighlights v hA (by decide) hnodup]
      rfl
    · rw [h1]
      exact jget_popAssign_other e kAchievements kHighlights kBullets (by decide) (by decide)
  · -- bullets→highlights only when achievements did not match
    intro v hH hA hB
    unfold normalizeProjectEntry
    have h1 : renameAlias e kAchievements kHighlights = e :=
      renameAlias_of_src_absent e kAchievements kHighlights hA
    rw [h1]
    have h2 := renameAlias_hit e kBullets kHighlights v hH hB
    rw [h2]
    refine ⟨jget_popAssign_dst e kBullets kHighlights v hB, ?_⟩
    unfold jhas
    rw [jget_popAssign_src e kBullets kHighlights v hB (by decide) hnodup]
    rfl
  · -- highlights already present: project entry unchanged
    intro w hH
    unfold normalizeProjectEntry
    have h1 : renameAlias e kAchievements kHighlights = e :=
      renameAlias_of_dst_present e kAchievements kHighlights (by simp [jhas, hH])
    rw [h1]
    exact renameAlias_of_dst_present e kBullets kHighlights (by simp [jhas, hH])
  · -- absent structured_resume: no-op
    intro fields hf
    have : jget fields kStructuredResume = none := by
      unfold jhas at hf
      exact Option.not_isSome_iff_eq_none.mp (by simp [hf])
    simp [normalizeSchema, this]
  · -- the spec's worked example
    exact ⟨rfl, rfl, rfl, rfl, rfl⟩

/-- C4 witness: the title→role clause applied to the spec's example entry,
whose keys are distinct, whose `role` key is absent and whose `title` is
`"Engineer"`. -/
theorem schema_reconciler_contract_witness :
    ((exampleExperienceEntry.map Prod.fst).Nodup
      ∧ jhas exampleExperienceEntry kRole = false
      ∧ jget exampleExperienceEntry kTitle = some (.str "Engineer".toList))
    ∧ jget (normalizeExperienceEntry exampleExperienceEntry) kRole
        = some (.str "Engineer".toList) :=
  ⟨⟨by decide, rfl, rfl⟩,
    ((schema_reconciler_contract exampleExperienceEntry (by decide)).1
      (.str "Engineer".toList) rfl rfl).1⟩

/-! ## Schema Validator — `LLMService._parse_response` and
`src/backend/app/schemas/resume_schema.py` -/

/-- The `ValueError` kinds raised along the `structure_resume` path. -/
inductive LLMServiceError where
  /-- "At least one data source (resume or GitHub) must be provided". -/
  | missingDataSource
  /-- "LLM API error: ..." (transport failure re-raised). -/
  | apiError
  /-- A `KeyError`/`TypeError` escaping `_build_user_prompt`. -/
  | promptBuildError
  /-- "Could not extract valid JSON from LLM response". -/
  | jsonParseFailed
  /-- "LLM response does not match expected schema: ...". -/
  | schemaValidation
deriving Repr, DecidableEq

/-- A validated decision-log entry (`DecisionLogEntry` in
`resume_schema.py`; the Python field `section` is `sectionName` here). -/
structure DecisionLogEntry where
  sectionName : PyStr
  action : PyStr
  items : List PyStr
  reason : PyStr
  source : PyStr
  confidence : PyStr
deriving Repr, DecidableEq

def jsonStrVal : Json → Option PyStr
  | .str s => some s
  | _ => none

def jsonStrList : Json → Option (List PyStr)
  | .arr items => items.mapM jsonStrVal
  | _ => none

/-- `DecisionLogEntry(**entry)` from `resume_schema.py`: all six fields
required, `items` a list of strings, `action` and `confidence` lowered and
checked against their closed vocabularies by the `field_validator`s
(the `source` field has no vocabulary check in the source).  `none`
models the pydantic `ValidationError`. -/
def validateDecisionLogEntry (j : Json) : Option DecisionLogEntry :=
  match j with
  | .obj fields => do
    let sectionName ← (jget fields "section".toList).bind jsonStrVal
    let actionRaw ← (jget fields "action".toList).bind jsonStrVal
    let action := Py.lower actionRaw
    if action ∈ ["included".toList, "excluded".toList, "merged".toList,
        "normalized".toList] then do
      let items ← (jget fields "items".toList).bind jsonStrList
      let reason ← (jget fields "reason".toList).bind jsonStrVal
      let source ← (jget fields "source".toList).bind jsonStrVal
      let confidenceRaw ← (jget fields "confidence".toList).bind jsonStrVal
      let confidence := Py.lower confidenceRaw
      if confidence ∈ ["high".toList, "medium".toList, "low".toList] then
        pure ⟨sectionName, action, items, reason, source, confidence⟩
      else none
    else none
  | _ => none

/-- The validation phase of `LLMService._parse_response`, after the JSON
has been obtained: `_normalize_schema`, strict `CanonicalResume(**...)`
validation (abstracted as `vR` — pydantic machinery generated from
`resume_schema.py`), then the per-entry decision-log loop whose failures
are only logged (`vE` abstracts `DecisionLogEntry(**entry)`).  Every
exception of the block maps to the schema `ValueError`. -/
def parseValidate {R E : Type} (vR : Json → Option R) (vE : Json → Option E)
    (parsed : Json) : Except LLMServiceError (R × List E) :=
  match normalizeSchema parsed with
  | none => .error .schemaValidation
  | some (.obj fields) =>
    (match vR ((jget fields kStructuredResume).getD (.obj [])) with
     | none => .error .schemaValidation
     | some resume =>
       match pyIterate ((jget fields kDecisionLog).getD (.arr [])) with
       | none => .error .schemaValidation
       | some entries => .ok (resume, entries.filterMap vE))
  | some _ => .error .schemaValidation

/-- `LLMService._parse_response` on fence-stripped content: direct
`json.loads`, repair on failure, then validation. -/
def parseResponse {R E : Type} (parse : PyStr → Option Json)
    (vR : Json → Option R) (vE : Json → Option E) (content : PyStr) :
    Except LLMServiceError (R × List E) :=
  match (match parse content with
         | some j => some j
         | none => attemptJsonRepair parse content) with
  | none => .error .jsonParseFailed
  | some parsed => parseValidate vR vE parsed

theorem parseValidate_two_field {R E : Type} (vR : Json → Option R)
    (vE : Json → Option E) (rd dl : Json) :
    parseValidate vR vE (.obj [(kStructuredResume, rd), (kDecisionLog, dl)]) =
      (match normalizeResumeVal rd with
       | none => .error .schemaValidation
       | some rd' =>
         match vR rd' with
         | none => .error .schemaValidation
         | some r =>
           match pyIterate dl with
           | none => .error .schemaValidation
           | some entries => .ok (r, entries.filterMap vE)) := by
  have hne : ¬(kStructuredResume = kDecisionLog) := by decide
  cases hn : normalizeResumeVal rd with
  | none => simp [parseValidate, normalizeSchema, jget, hn]
  | some rd' =>
    simp [parseValidate, normalizeSchema, jget, jset, hn, hne]

/-- The spec's invalid decision-log entry: `confidence: "very high"`. -/
def exampleBadDecisionEntry : Json :=
  .obj [("section".toList, .str "projects".toList),
        ("action".toList, .str "included".toList),
        ("items".toList, .arr [.str "X".toList]),
        ("reason".toList, .str "relevant".toList),
        ("source".toList, .str "github".toList),
        ("confidence".toList, .str "very high".toList)]

/-- A decision-log entry that validates. -/
def exampleGoodDecisionEntry : Json :=
  .obj [("section".toList, .str "projects".toList),
        ("action".toList, .str "included".toList),
        ("items".toList, .arr [.str "X".toList]),
        ("reason".toList, .str "relevant".toList),
        ("source".toList, .str "github".toList),
        ("confidence".toList, .str "high".toList)]

/-- C1: validation is asymmetric.  For every resume validator `vR`, entry
validator `vE` and parsed response `{"structured_resume": rd,
"decision_log": [...]}`: dropping an entry that fails validation changes
nothing else (the result is identical to the response without that entry,
whatever `vR` does); if the reconciled resume fails validation the whole
operation fails with the schema-validation error; and if it validates,
the result is the resume together with exactly the entries that validate,
in order. -/
theorem decision_log_validation_asymmetry {R E : Type}
    (vR : Json → Option R) (vE : Json → Option E)
    (rd : Json) (xs ys l : List Json) (bad : Json) :
    (vE bad = none →
      parseValidate vR vE
        (.obj [(kStructuredResume, rd), (kDecisionLog, .arr (xs ++ bad :: ys))])
      = parseValidate vR vE
        (.obj [(kStructuredResume, rd), (kDecisionLog, .arr (xs ++ ys))]))
    ∧ (∀ rd', normalizeResumeVal rd = some rd' → vR rd' = none →
      parseValidate vR vE (.obj [(kStructuredResume, rd), (kDecisionLog, .arr l)])
      = .error .schemaValidation)
    ∧ (∀ rd' r, normalizeResumeVal rd = some rd' → vR rd' = some r →
      parseValidate vR vE (.obj [(kStructuredResume, rd), (kDecisionLog, .arr l)])
      = .ok (r, l.filterMap vE)) := by
  refine ⟨?_, ?_, ?_⟩
  · intro hbad
    rw [parseValidate_two_field, parseValidate_two_field]
    cases hn : normalizeResumeVal rd with
    | none => rfl
    | some rd' =>
      cases hv : vR rd' with
      | none => simp [hv]
      | some r =>
        simp [hv, pyIterate, List.filterMap_append, List.filterMap_cons, hbad]
  · intro rd' hn hv
    rw [parseValidate_two_field, hn]
    simp [hv]
  · intro rd' r hn hv
    rw [parseValidate_two_field, hn]
    simp [hv, pyIterate]

/-- C1 witness: the spec's `confidence: "very high"` entry fails the
embedded `DecisionLogEntry` validation, and dropping it from a concrete
response leaves the result equal to the response without it. -/
theorem decision_log_validation_asymmetry_witness :
    validateDecisionLogEntry exampleBadDecisionEntry = none
    ∧ parseValidate (fun j => some j) validateDecisionLogEntry
        (.obj [(kStructuredResume, .obj []),
               (kDecisionLog, .arr [exampleGoodDecisionEntry, exampleBadDecisionEntry])])
      = parseValidate (fun j => some j) validateDecisionLogEntry
        (.obj [(kStructuredResume, .obj []),
               (kDecisionLog, .arr [exampleGoodDecisionEntry])]) :=
  ⟨rfl,
    (decision_log_validation_asymmetry (fun j => some j) validateDecisionLogEntry
      (.obj []) [exampleGoodDecisionEntry] [] [] exampleBadDecisionEntry).1 rfl⟩

/-! ## Prompt Builder and `structure_resume` — `llm_service.py` -/

def quoteChar : Char := Char.ofNat 39
def lbraceChar : Char := '\x7b'
def rbraceChar : Char := '\x7d'

mutual

/-- Python `repr` on JSON-shaped values (quoting without escape handling,
which no input under study needs). -/
def pyRepr : Json → PyStr
  | .null => "None".toList
  | .bool true => "True".toList
  | .bool false => "False".toList
  | .num n => (toString n).toList
  | .str s => quoteChar :: (s ++ [quoteChar])
  | .arr items => '[' :: (pyReprList items ++ [']'])
  | .obj fields => lbraceChar :: (pyReprFields fields ++ [rbraceChar])

def pyReprList : List Json → PyStr
  | [] => []
  | [v] => pyRepr v
  | v :: rest => pyRepr v ++ ", ".toList ++ pyReprList rest

def pyReprFields : List (PyStr × Json) → PyStr
  | [] => []
  | [(k, v)] => (quoteChar :: (k ++ [quoteChar])) ++ ": ".toList ++ pyRepr v
  | (k, v) :: rest =>
    (quoteChar :: (k ++ [quoteChar])) ++ ": ".toList ++ pyRepr v
      ++ ", ".toList ++ pyReprFields rest

end

/-- Python `str()` as used by f-string interpolation. -/
def pyStrOf : Json → PyStr
  | .str s => s
  | v => pyRepr v

/-- `sanitize_text` applied to a raw fetched value: falsy values
short-circuit to `""`, truthy strings are sanitized, truthy non-strings
raise (`str.replace` on a non-string). -/
def sanitizePyValue (p : Char → Bool) (v : Json) : Option PyStr :=
  if pyTruthy v = false then some []
  else match v with
    | .str s => some (sanitizeText p s)
    | _ => none

/-- `", ".join(x)`: the argument must be an iterable of strings. -/
def strIterable : Json → Option (List PyStr)
  | .arr items => items.mapM jsonStrVal
  | .str s => some (s.map (fun c => [c]))
  | .obj fields => some (fields.map Prod.fst)
  | _ => none

/-- The structuring settings read by `_build_user_prompt`
(`resume_language`, `verbosity`, `project_count`). -/
structure LLMSettings where
  resumeLanguage : PyStr
  verbosity : PyStr
  projectCount : Nat
deriving Repr, DecidableEq

/-- The `PROFILE:` block of `_build_user_prompt` (profile defaults to an
empty dict; `.get` on a truthy non-dict raises). -/
def buildProfileParts (p : Char → Bool) (profileVal : Json) : Option (List PyStr) :=
  match profileVal with
  | .obj fields => do
    let name ← sanitizePyValue p ((jget fields "name".toList).getD (.str "N/A".toList))
    let bio ← sanitizePyValue p ((jget fields "bio".toList).getD (.str "N/A".toList))
    let loc ← sanitizePyValue p ((jget fields "location".toList).getD (.str "N/A".toList))
    some ["PROFILE:".toList,
      "  Username: ".toList ++ pyStrOf ((jget fields "username".toList).getD (.str "N/A".toList)),
      "  Name: ".toList ++ name,
      "  Bio: ".toList ++ bio,
      "  Location: ".toList ++ loc,
      "  Email: ".toList ++ pyStrOf ((jget fields "email".toList).getD (.str "N/A".toList)),
      []]
  | _ => none

/-- The numbered repository digests of `_build_user_prompt`
(`repo['name']` raises when absent or when the item is not a dict). -/
def buildRepoParts (p : Char → Bool) : Nat → List Json → Option (List PyStr)
  | _, [] => some []
  | i, repo :: rest =>
    match repo with
    | .obj fields => do
      let name ← jget fields "name".toList
      let descSan ← sanitizePyValue p ((jget fields "description".toList).getD .null)
      let desc := if descSan.isEmpty then "No description".toList else descSan
      let langs ← strIterable ((jget fields "languages".toList).getD (.arr []))
      let url := (jget fields "url".toList).getD (.str "N/A".toList)
      let stars := (jget fields "stars".toList).getD (.num 0)
      let readmeVal := (jget fields "readme".toList).getD .null
      let readmeParts ←
        (if pyTruthy readmeVal then
          match readmeVal with
          | .str s => some ["   README: ".toList ++ (sanitizeText p s).take 500]
          | _ => none
        else some ([] : List PyStr))
      let tail ← buildRepoParts p (i + 1) rest
      some (((toString i).toList ++ ". ".toList ++ pyStrOf name)
        :: ("   Description: ".toList ++ desc)
        :: ("   Languages: ".toList ++ List.intercalate ", ".toList langs)
        :: ("   URL: ".toList ++ pyStrOf url)
        :: ("   Stars: ".toList ++ pyStrOf stars)
        :: (readmeParts ++ ([] : PyStr) :: tail))
    | _ => none

/-- `LLMService._build_user_prompt`.  `none` models an exception escaping
the builder (a `KeyError` on `repo['name']`, iterating a non-iterable,
joining non-strings, or sanitizing a truthy non-string). -/
def buildUserPrompt (p : Char → Bool) (resumeText : Option PyStr)
    (githubData : Option Json) (customInstructions : Option PyStr)
    (settings : Option LLMSettings) : Option PyStr := do
  let resumePart : PyStr :=
    match resumeText with
    | some s => if s.isEmpty then "Not provided".toList else Py.strip (sanitizeText p s)
    | none => "Not provided".toList
  let githubParts ←
    (match githubData with
     | some gh =>
       if pyTruthy gh then
         match gh with
         | .obj ghFields => do
           let profParts ← buildProfileParts p
             ((jget ghFields "profile".toList).getD (.obj []))
           let reposVal := (jget ghFields "repositories".toList).getD (.arr [])
           let counted ←
             (match reposVal with
              | .arr items => some (items.length, items)
              | .str s => some (s.length, s.map (fun c => Json.str [c]))
              | .obj fields => some (fields.length, fields.map (fun kv => Json.str kv.1))
              | _ => none)
           let repoParts ← buildRepoParts p 1 counted.2
           some (profParts
             ++ (("REPOSITORIES (".toList ++ (toString counted.1).toList ++ " total):".toList)
                 :: repoParts))
         | _ => none
       else some ["Not provided".toList]
     | none => some ["Not provided".toList])
  let customBlock : List PyStr :=
    match customInstructions with
    | some ci =>
      if ci.isEmpty then []
      else ["<custom_instructions>".toList, Py.strip ci, "</custom_instructions>".toList,
            [], "</custom_instructions>".toList, []]
    | none => []
  let settingsBlock : List PyStr :=
    match settings with
    | some st =>
      ["2. Write the resume content in ".toList ++ st.resumeLanguage ++ ".".toList,
       "3. Use a ".toList ++ st.verbosity ++ " writing style.".toList,
       "4. Select exactly ".toList ++ (toString st.projectCount).toList
         ++ " of the most relevant projects.".toList]
    | none => ["2. Include 5-8 most relevant projects.".toList]
  let customRule : List PyStr :=
    match customInstructions with
    | some ci =>
      if ci.isEmpty then []
      else ["5. Follow the custom instructions provided above.".toList]
    | none => []
  let parts : List PyStr :=
    ["Please structure the following data into a canonical resume.".toList, [],
     "<unstructured_resume>".toList, resumePart, "</unstructured_resume>".toList, [],
     "<github_data>".toList]
    ++ githubParts
    ++ ["</github_data>".toList, []]
    ++ customBlock
    ++ ["GOAL: Extract and normalize information from the tags above into the JSON schema.".toList,
        "RULES:".toList,
        "1. Use only the provided information.".toList]
    ++ settingsBlock
    ++ customRule
  some (List.intercalate ['\n'] parts)

/-- Python truthiness of `Optional[str]`. -/
def optStrTruthy : Option PyStr → Bool
  | none => false
  | some s => !s.isEmpty

/-- Python truthiness of `Optional[dict]` (embedded as JSON). -/
def optJsonTruthy : Option Json → Bool
  | none => false
  | some j => pyTruthy j

/-- `LLMService.structure_resume`.  The system-prompt file read and the
Groq chat call are I/O: the former is the `systemPrompt` argument, the
latter the `invoker` argument.  The second component of the result counts
the model invocations performed. -/
def structureResume {R E : Type}
    (invoker : PyStr → PyStr → Except PyStr PyStr)
    (parse : PyStr → Option Json)
    (vR : Json → Option R) (vE : Json → Option E)
    (p : Char → Bool) (systemPrompt : PyStr)
    (resumeText : Option PyStr) (githubData : Option Json)
    (customInstructions : Option PyStr) (settings : Option LLMSettings) :
    Except LLMServiceError (R × List E) × Nat :=
  if !optStrTruthy resumeText && !optJsonTruthy githubData then
    (.error .missingDataSource, 0)
  else
    match buildUserPrompt p resumeText githubData customInstructions settings with
    | none => (.error .promptBuildError, 0)
    | some userPrompt =>
      match invoker systemPrompt userPrompt with
      | .error _ => (.error .apiError, 1)
      | .ok content => (parseResponse parse vR vE (cleanLLMContent content), 1)

/-- C2: whenever neither resume text nor GitHub data is truthy — in
particular when both are absent — `structure_resume` fails with the
missing-data-source precondition error and the model invoker is called
zero times, whatever the invoker, parser, validators, printability oracle,
system prompt, custom instructions and settings are. -/
theorem structure_resume_precondition {R E : Type}
    (invoker : PyStr → PyStr → Except PyStr PyStr) (parse : PyStr → Option Json)
    (vR : Json → Option R) (vE : Json → Option E) (p : Char → Bool)
    (systemPrompt : PyStr) (resumeText : Option PyStr) (githubData : Option Json)
    (customInstructions : Option PyStr) (settings : Option LLMSettings)
    (hr : optStrTruthy resumeText = false) (hg : optJsonTruthy githubData = false) :
    structureResume invoker parse vR vE p systemPrompt resumeText githubData
      customInstructions settings = (.error .missingDataSource, 0) := by
  unfold structureResume
  rw [hr, hg]
  rfl

/-- C2 witness: the precondition theorem applied at `None`/`None` with a
counting stub invoker, a concrete parser and concrete validators. -/
theorem structure_resume_precondition_witness :
    (optStrTruthy none = false ∧ optJsonTruthy none = false)
    ∧ structureResume (fun _ _ => .ok "ignored".toList) jsonParse
        (fun j => some j) validateDecisionLogEntry asciiPrintable
        "system".toList none none none none
      = (.error .missingDataSource, 0) :=
  ⟨⟨rfl, rfl⟩,
    structure_resume_precondition (fun _ _ => .ok "ignored".toList) jsonParse
      (fun j => some j) validateDecisionLogEntry asciiPrintable
      "system".toList none none none none rfl rfl⟩

/-- C10: an empty-string resume text is as absent at the synthesis
boundary — with `github_data` either absent or the empty dict, the call
fails with the missing-data-source error before any model invocation,
even though a resume-text argument was supplied. -/
theorem empty_resume_text_is_absent {R E : Type}
    (invoker : PyStr → PyStr → Except PyStr PyStr) (parse : PyStr → Option Json)
    (vR : Json → Option R) (vE : Json → Option E) (p : Char → Bool)
    (systemPrompt : PyStr) (customInstructions : Option PyStr)
    (settings : Option LLMSettings) :
    structureResume invoker parse vR vE p systemPrompt (some []) none
      customInstructions settings = (.error .missingDataSource, 0)
    ∧ structureResume invoker parse vR vE p systemPrompt (some []) (some (.obj []))
      customInstructions settings = (.error .missingDataSource, 0) :=
  ⟨rfl, rfl⟩

/-! ## Format-parser byte decoding — `markdown_parser.py` /
`latex_parser.py`, `_decode_content` (identical in both files) -/

/-- Raw file bytes. -/
abbrev Byte := Fin 256

/-- A UTF-8 continuation byte (`0x80..0xBF`). -/
def utf8Cont (b : Byte) : Bool := 0x80 ≤ b.val && b.val < 0xc0

/-- Strict UTF-8 decoding (`bytes.decode("utf-8")`): rejects invalid
leads, truncated sequences, overlong encodings, surrogates and code
points above U+10FFFF, as CPython's decoder does. -/
def decodeUtf8 : List Byte → Option PyStr
  | [] => some []
  | b :: rest =>
    if b.val < 0x80 then
      (decodeUtf8 rest).map (fun t => Char.ofNat b.val :: t)
    else if b.val < 0xc2 then none
    else if b.val < 0xe0 then
      match rest with
      | b2 :: rest2 =>
        if utf8Cont b2 then
          (decodeUtf8 rest2).map
            (fun t => Char.ofNat ((b.val - 0xc0) * 64 + (b2.val - 0x80)) :: t)
        else none
      | [] => none
    else if b.val < 0xf0 then
      match rest with
      | b2 :: b3 :: rest3 =>
        let okB2 : Bool :=
          if b.val = 0xe0 then 0xa0 ≤ b2.val && b2.val < 0xc0
          else if b.val = 0xed then 0x80 ≤ b2.val && b2.val < 0xa0
          else utf8Cont b2
        if okB2 && utf8Cont b3 then
          (decodeUtf8 rest3).map (fun t =>
            Char.ofNat (((b.val - 0xe0) * 64 + (b2.val - 0x80)) * 64 + (b3.val - 0x80)) :: t)
        else none
      | _ => none
    else if b.val < 0xf5 then
      match rest with
      | b2 :: b3 :: b4 :: rest4 =>
        let okB2 : Bool :=
          if b.val = 0xf0 then 0x90 ≤ b2.val && b2.val < 0xc0
          else if b.val = 0xf4 then 0x80 ≤ b2.val && b2.val < 0x90
          else utf8Cont b2
        if okB2 && utf8Cont b3 && utf8Cont b4 then
          (decodeUtf8 rest4).map (fun t =>
            Char.ofNat ((((b.val - 0xf0) * 64 + (b2.val - 0x80)) * 64
              + (b3.val - 0x80)) * 64 + (b4.val - 0x80)) :: t)
        else none
      | _ => none
    else none

/-- `bytes.decode("utf-8-sig")`: strip a UTF-8 BOM when present, then
decode as UTF-8. -/
def decodeUtf8Sig (s : List Byte) : Option PyStr :=
  match s with
  | 0xef :: 0xbb :: 0xbf :: rest => decodeUtf8 rest
  | _ => decodeUtf8 s

/-- `bytes.decode("latin-1")`: total — every byte maps to U+00..U+FF. -/
def decodeLatin1 (s : List Byte) : PyStr :=
  s.map (fun b => Char.ofNat b.val)

/-- One byte of `bytes.decode("cp1252")`: the 0x80-0x9F block maps through
the Windows-1252 table, in which 0x81, 0x8D, 0x8F, 0x90 and 0x9D are
undefined (decoding fails there). -/
def cp1252Char (b : Byte) : Option Char :=
  if b.val = 0x80 then some (Char.ofNat 0x20ac)
  else if b.val = 0x81 then none
  else if b.val = 0x82 then some (Char.ofNat 0x201a)
  else if b.val = 0x83 then some (Char.ofNat 0x0192)
  else if b.val = 0x84 then some (Char.ofNat 0x201e)
  else if b.val = 0x85 then some (Char.ofNat 0x2026)
  else if b.val = 0x86 then some (Char.ofNat 0x2020)
  else if b.val = 0x87 then some (Char.ofNat 0x2021)
  else if b.val = 0x88 then some (Char.ofNat 0x02c6)
  else if b.val = 0x89 then some (Char.ofNat 0x2030)
  else if b.val = 0x8a then some (Char.ofNat 0x0160)
  else if b.val = 0x8b then some (Char.ofNat 0x2039)
  else if b.val = 0x8c then some (Char.ofNat 0x0152)
  else if b.val = 0x8d then none
  else if b.val = 0x8e then some (Char.ofNat 0x017d)
  else if b.val = 0x8f then none
  else if b.val = 0x90 then none
  else if b.val = 0x91 then some (Char.ofNat 0x2018)
  else if b.val = 0x92 then some (Char.ofNat 0x2019)
  else if b.val = 0x93 then some (Char.ofNat 0x201c)
  else if b.val = 0x94 then some (Char.ofNat 0x201d)
  else if b.val = 0x95 then some (Char.ofNat 0x2022)
  else if b.val = 0x96 then some (Char.ofNat 0x2013)
  else if b.val = 0x97 then some (Char.ofNat 0x2014)
  else if b.val = 0x98 then some (Char.ofNat 0x02dc)
  else if b.val = 0x99 then some (Char.ofNat 0x2122)
  else if b.val = 0x9a then some (Char.ofNat 0x0161)
  else if b.val = 0x9b then some (Char.ofNat 0x203a)
  else if b.val = 0x9c then some (Char.ofNat 0x0153)
  else if b.val = 0x9d then none
  else if b.val = 0x9e then some (Char.ofNat 0x017e)
  else if b.val = 0x9f then some (Char.ofNat 0x0178)
  else some (Char.ofNat b.val)

/-- `bytes.decode("cp1252")`. -/
def decodeCp1252 (s : List Byte) : Option PyStr :=
  s.mapM cp1252Char

/-- `bytes.decode("utf-8", errors="ignore")`: invalid sequences are
skipped.  Provably unreachable in the fallback chain (the latin-1 stage
is total), so the skipping granularity is a byte-by-byte approximation of
CPython's error ranges. -/
def decodeUtf8Lossy : List Byte → PyStr
  | [] => []
  | b :: rest =>
    if b.val < 0x80 then Char.ofNat b.val :: decodeUtf8Lossy rest
    else if b.val < 0xc2 then decodeUtf8Lossy rest
    else if b.val < 0xe0 then
      match hr : rest with
      | b2 :: rest2 =>
        if utf8Cont b2 then
          Char.ofNat ((b.val - 0xc0) * 64 + (b2.val - 0x80)) :: decodeUtf8Lossy rest2
        else decodeUtf8Lossy rest
      | [] => []
    else if b.val < 0xf0 then
      match hr : rest with
      | b2 :: b3 :: rest3 =>
        let okB2 : Bool :=
          if b.val = 0xe0 then 0xa0 ≤ b2.val && b2.val < 0xc0
          else if b.val = 0xed then 0x80 ≤ b2.val && b2.val < 0xa0
          else utf8Cont b2
        if okB2 && utf8Cont b3 then
          Char.ofNat (((b.val - 0xe0) * 64 + (b2.val - 0x80)) * 64 + (b3.val - 0x80))
            :: decodeUtf8Lossy rest3
        else decodeUtf8Lossy rest
      | _ => []
    else if b.val < 0xf5 then
      match hr : rest with
      | b2 :: b3 :: b4 :: rest4 =>
        let okB2 : Bool :=
          if b.val = 0xf0 then 0x90 ≤ b2.val && b2.val < 0xc0
          else if b.val = 0xf4 then 0x80 ≤ b2.val && b2.val < 0x90
          else utf8Cont b2
        if okB2 && utf8Cont b3 && utf8Cont b4 then
          Char.ofNat ((((b.val - 0xf0) * 64 + (b2.val - 0x80)) * 64
            + (b3.val - 0x80)) * 64 + (b4.val - 0x80)) :: decodeUtf8Lossy rest4
        else decodeUtf8Lossy rest
      | _ => []
    else decodeUtf8Lossy rest
termination_by s => s.length
decreasing_by all_goals (simp_wf; try simp_all [List.length_cons]; try omega)

/-- The encoding attempts of `_decode_content`, in source order:
utf-8, utf-8-sig, latin-1, cp1252. -/
def decodeAttempts (content : List Byte) : Option PyStr :=
  match decodeUtf8 content with
  | some t => some t
  | none =>
    match decodeUtf8Sig content with
    | some t => some t
    | none =>
      match some (decodeLatin1 content) with
      | some t => some t
      | none => decodeCp1252 content

/-- `_decode_content` (markdown and LaTeX parsers share this body): the
four-encoding fallback loop, then lossy UTF-8 as a last resort. -/
def decodeContent (content : List Byte) : PyStr :=
  (decodeAttempts content).getD (decodeUtf8Lossy content)

/-! ## Markdown text cleanup — `markdown_parser.py`, `_clean_text` -/

/-- Python `str.replace(pat, rep)`, fuel-driven so that it reduces
definitionally (each step consumes at least one character, so a fuel of
`s.length` is exhaustive; the `0` case is unreachable then). -/
def replaceAllGo (pat rep : PyStr) : Nat → PyStr → PyStr
  | _, [] => []
  | 0, s => s
  | fuel + 1, c :: rest =>
    if pat ≠ [] ∧ pat.isPrefixOf (c :: rest) then
      rep ++ replaceAllGo pat rep fuel (rest.drop (pat.length - 1))
    else c :: replaceAllGo pat rep fuel rest

/-- Python `str.replace(pat, rep)`: all non-overlapping occurrences, left
to right.  (Callers only use non-empty patterns; an empty pattern returns
the string unchanged here.) -/
def replaceAll (pat rep s : PyStr) : PyStr := replaceAllGo pat rep s.length s

theorem length_le_of_isPrefixOf (l1 : PyStr) :
    ∀ l2 : PyStr, l1.isPrefixOf l2 = true → l1.length ≤ l2.length := by
  induction l1 with
  | nil => intro l2 _; simp
  | cons a as ih =>
    intro l2 h
    cases l2 with
    | nil => simp [List.isPrefixOf] at h
    | cons b bs =>
      simp only [List.isPrefixOf, Bool.and_eq_true] at h
      simp only [List.length_cons]
      exact Nat.succ_le_succ (ih bs h.2)

theorem mem_replaceAllGo (pat rep : PyStr) (c : Char) :
    ∀ fuel (s : PyStr), c ∈ replaceAllGo pat rep fuel s → c ∈ s ∨ c ∈ rep := by
  intro fuel
  induction fuel with
  | zero =>
    intro s h
    cases s with
    | nil => simp [replaceAllGo] at h
    | cons c' rest => exact Or.inl (by simpa [replaceAllGo] using h)
  | succ fuel ih =>
    intro s h
    cases s with
    | nil => simp [replaceAllGo] at h
    | cons c' rest =>
      rw [replaceAllGo] at h
      by_cases hpre : pat ≠ [] ∧ pat.isPrefixOf (c' :: rest)
      · rw [if_pos hpre] at h
        rcases List.mem_append.mp h with h | h
        · exact Or.inr h
        · rcases ih _ h with h | h
          · exact Or.inl (List.mem_cons_of_mem _ (List.mem_of_mem_drop h))
          · exact Or.inr h
      · rw [if_neg hpre] at h
        rcases List.mem_cons.mp h with h | h
        · exact Or.inl (h ▸ List.mem_cons_self _ _)
        · rcases ih rest h with h | h
          · exact Or.inl (List.mem_cons_of_mem _ h)
          · exact Or.inr h

/-- Characters of the replacement output come from the input or from the
replacement string. -/
theorem mem_replaceAll (pat rep : PyStr) (s : PyStr) (c : Char)
    (h : c ∈ replaceAll pat rep s) : c ∈ s ∨ c ∈ rep :=
  mem_replaceAllGo pat rep c s.length s h

theorem replaceAllGo_length_le (pat rep : PyStr) (hlen : rep.length ≤ pat.length) :
    ∀ fuel (s : PyStr), (replaceAllGo pat rep fuel s).length ≤ s.length := by
  intro fuel
  induction fuel with
  | zero =>
    intro s
    cases s with
    | nil => simp [replaceAllGo]
    | cons c' rest => simp [replaceAllGo]
  | succ fuel ih =>
    intro s
    cases s with
    | nil => simp [replaceAllGo]
    | cons c' rest =>
      rw [replaceAllGo]
      by_cases hpre : pat ≠ [] ∧ pat.isPrefixOf (c' :: rest)
      · rw [if_pos hpre]
        have hp : pat.length ≤ (c' :: rest).length := length_le_of_isPrefixOf pat _ hpre.2
        have := ih (rest.drop (pat.length - 1))
        simp only [List.length_append, List.length_cons, List.length_drop] at *
        omega
      · rw [if_neg hpre]
        have := ih rest
        simp only [List.length_cons]
        omega

/-- Replacing with a shorter string never lengthens. -/
theorem replaceAll_length_le (pat rep : PyStr) (hlen : rep.length ≤ pat.length)
    (s : PyStr) : (replaceAll pat rep s).length ≤ s.length :=
  replaceAllGo_length_le pat rep hlen s.length s

theorem replaceAllGo_length_lt (pat rep : PyStr) (hne : pat ≠ [])
    (hlen : rep.length < pat.length) :
    ∀ fuel (s : PyStr), s.length ≤ fuel → Py.containsSub s pat = true →
      (replaceAllGo pat rep fuel s).length < s.length := by
  intro fuel
  induction fuel with
  | zero =>
    intro s hs hocc
    have : s = [] := List.eq_nil_of_length_eq_zero (Nat.le_zero.mp hs)
    subst this
    exfalso
    unfold Py.containsSub Py.findSub at hocc
    rcases pat with _ | ⟨p, ps⟩
    · exact hne rfl
    · simp [List.isPrefixOf] at hocc
  | succ fuel ih =>
    intro s hs hocc
    cases s with
    | nil =>
      exfalso
      unfold Py.containsSub Py.findSub at hocc
      rcases pat with _ | ⟨p, ps⟩
      · exact hne rfl
      · simp [List.isPrefixOf] at hocc
    | cons c' rest =>
      rw [replaceAllGo]
      by_cases hpre : pat ≠ [] ∧ pat.isPrefixOf (c' :: rest)
      · rw [if_pos hpre]
        have hp : pat.length ≤ (c' :: rest).length := length_le_of_isPrefixOf pat _ hpre.2
        have hle := replaceAllGo_length_le pat rep (Nat.le_of_lt hlen) fuel
          (rest.drop (pat.length - 1))
        simp only [List.length_append, List.length_cons, List.length_drop] at *
        omega
      · rw [if_neg hpre]
        have hocc' : Py.containsSub rest pat = true := by
          unfold Py.containsSub Py.findSub at hocc
          by_cases hp : pat.isPrefixOf (c' :: rest)
          · exact absurd ⟨hne, hp⟩ hpre
          · simp only [hp, if_false] at hocc
            unfold Py.containsSub
            simpa using hocc
        have hrl : rest.length ≤ fuel := by
          simp only [List.length_cons] at hs
          omega
        have := ih rest hrl hocc'
        simp only [List.length_cons]
        omega

/-- Replacing an occurrence of a non-empty pattern by a strictly shorter
replacement strictly shrinks the string. -/
theorem replaceAll_length_lt (pat rep : PyStr) (hne : pat ≠ [])
    (hlen : rep.length < pat.length) (s : PyStr)
    (hocc : Py.containsSub s pat = true) :
    (replaceAll pat rep s).length < s.length :=
  replaceAllGo_length_lt pat rep hne hlen s.length s (Nat.le_refl _) hocc

/-- The `while "\n\n\n" in text` loop of `_clean_text`, fuel-driven:
each pass strictly shrinks the text, so a fuel of `s.length` reaches the
fixed point (`collapseBlankRuns_no_triple` below proves it). -/
def collapseBlankRunsGo : Nat → PyStr → PyStr
  | 0, s => s
  | fuel + 1, s =>
    if Py.containsSub s ['\n', '\n', '\n'] then
      collapseBlankRunsGo fuel (replaceAll ['\n', '\n', '\n'] ['\n', '\n'] s)
    else s

/-- `while "\n\n\n" in text: text = text.replace("\n\n\n", "\n\n")`. -/
def collapseBlankRuns (s : PyStr) : PyStr := collapseBlankRunsGo s.length s

/-- The loop's fixed point: no three consecutive newlines remain. -/
theorem collapseBlankRuns_no_triple :
    ∀ fuel (s : PyStr), s.length ≤ fuel →
      Py.containsSub (collapseBlankRunsGo fuel s) ['\n', '\n', '\n'] = false := by
  intro fuel
  induction fuel with
  | zero =>
    intro s hs
    have : s = [] := List.eq_nil_of_length_eq_zero (Nat.le_zero.mp hs)
    subst this
    simp [collapseBlankRunsGo, Py.containsSub, Py.findSub, List.isPrefixOf]
  | succ fuel ih =>
    intro s hs
    rw [collapseBlankRunsGo]
    by_cases hocc : Py.containsSub s ['\n', '\n', '\n'] = true
    · rw [if_pos hocc]
      have hlt := replaceAll_length_lt ['\n', '\n', '\n'] ['\n', '\n']
        (by decide) (by decide) s hocc
      exact ih _ (by omega)
    · rw [if_neg hocc]
      exact Bool.not_eq_true _ |>.mp hocc



/-- `MarkdownParser._clean_text`: normalize `\r\n` and `\r` to `\n`,
collapse runs of blank lines, strip. -/
def cleanTextMd (text : PyStr) : PyStr :=
  Py.strip (collapseBlankRuns
    (replaceAll ['\r'] ['\n'] (replaceAll ['\r', '\n'] ['\n'] text)))

/-! ## Format parsers — `base.py`, `pdf_parser.py`, `markdown_parser.py`,
`latex_parser.py` -/

/-- `ParseResult` from `base.py` (after `__post_init__`). -/
structure ParseResult where
  text : PyStr
  pageCount : Nat
  characterCount : Nat
  warnings : List PyStr
deriving Repr, DecidableEq

/-- `pathlib.Path(filename).suffix` for the common file-name forms: the
extension from the last dot of the base name, empty for no dot, a leading
dot (hidden file) or a trailing dot. -/
def pySuffix (filename : PyStr) : PyStr :=
  let name := (filename.reverse.takeWhile (fun c => c ≠ '/')).reverse
  match name.reverse.findIdx? (fun c => c = '.') with
  | none => []
  | some j =>
    let i := name.length - 1 - j
    if i = 0 ∨ i = name.length - 1 then [] else name.drop i

/-- `BaseParser.get_extension`: `Path(filename).suffix.lower()`. -/
def getExtension (filename : PyStr) : PyStr := Py.lower (pySuffix filename)

/-- `BaseParser.can_handle` against a supported-extension list. -/
def canHandle (supported : List PyStr) (filename : PyStr) : Bool :=
  getExtension filename ∈ supported

def mdExtensions : List PyStr := [".md".toList, ".markdown".toList]
def latexExtensions : List PyStr := [".tex".toList, ".latex".toList]
def pdfExtensions : List PyStr := [".pdf".toList]

/-- `MarkdownParser.MAX_FILE_SIZE` = `LaTeXParser.MAX_FILE_SIZE` (1MB).
The PDF parser declares no such constant. -/
def MAX_FILE_SIZE : Nat := 1024 * 1024

/-- `MarkdownParser.validate_file`: extension, emptiness, size, then a
decode and readable-text check.  (`_decode_content` is total, so the
`except` around it is dead.) -/
def validateFileMd (content : List Byte) (filename : PyStr) : Bool × Option PyStr :=
  if !canHandle mdExtensions filename then
    (false, some "Invalid file extension: expected .md or .markdown".toList)
  else if content.isEmpty then (false, some "File is empty".toList)
  else if content.length > MAX_FILE_SIZE then
    (false, some "File too large: maximum size is 1024KB".toList)
  else if (Py.strip (decodeContent content)).isEmpty then
    (false, some "File contains no readable text".toList)
  else (true, none)

/-- `LaTeXParser.validate_file`: as Markdown, plus the requirement that
the decoded text contain at least one backslash. -/
def validateFileLatex (content : List Byte) (filename : PyStr) : Bool × Option PyStr :=
  if !canHandle latexExtensions filename then
    (false, some "Invalid file extension: expected .tex or .latex".toList)
  else if content.isEmpty then (false, some "File is empty".toList)
  else if content.length > MAX_FILE_SIZE then
    (false, some "File too large: maximum size is 1024KB".toList)
  else
    let text := decodeContent content
    if (Py.strip text).isEmpty then
      (false, some "File contains no readable text".toList)
    else if !text.contains '\\' then
      (false, some "File does not appear to be valid LaTeX".toList)
    else (true, none)

/-- The observable behaviour of `pypdf.PdfReader` on given bytes:
construction may raise; construction may succeed with an encryption flag;
enumerating `reader.pages` afterwards may raise. -/
inductive PdfOpenResult where
  | raise (msg : PyStr)
  | opened (isEncrypted : Bool) (pagesFailure : Option PyStr)
deriving Repr, DecidableEq

/-- `%PDF`. -/
def pdfMagic : List Byte := [0x25, 0x50, 0x44, 0x46]

/-- `PDFParser.validate_file`: extension, emptiness, magic bytes, then
`PdfReader` construction, encryption check and page enumeration.  There
is no size check in this validator. -/
def validateFilePdf (reader : List Byte → PdfOpenResult) (content : List Byte)
    (filename : PyStr) : Bool × Option PyStr :=
  if !canHandle pdfExtensions filename then
    (false, some "Invalid file extension: expected .pdf".toList)
  else if content.isEmpty then (false, some "File is empty".toList)
  else if !pdfMagic.isPrefixOf content then
    (false, some "File does not appear to be a valid PDF".toList)
  else
    match reader content with
    | .raise msg => (false, some ("PDF validation failed: ".toList ++ msg))
    | .opened true _ => (false, some "PDF is password protected".toList)
    | .opened false (some msg) => (false, some ("PDF validation failed: ".toList ++ msg))
    | .opened false none => (true, none)

/-- `MarkdownParser.parse`: decode (total), clean, wrap — never raises. -/
def parseMarkdown (content : List Byte) : ParseResult :=
  let text := cleanTextMd (decodeContent content)
  ⟨text, 1, text.length, []⟩

/-- `LaTeXParser.parse`: decode (total), extract text (the pure
regex-pipeline `_extract_text`, abstracted as `extract`), collect the
graphics warning — never raises. -/
def parseLatex (extract : PyStr → PyStr) (content : List Byte) : ParseResult :=
  let text := decodeContent content
  let extracted := extract text
  let warnings :=
    if Py.containsSub text ("\\begin\x7btikzpicture\x7d".toList)
        || Py.containsSub text ("\\includegraphics".toList) then
      ["Graphics/diagrams in LaTeX file were not extracted".toList]
    else []
  ⟨extracted, 1, extracted.length, warnings⟩

/-- C8: byte decoding in the Markdown/LaTeX parsers never fails — the
attempts run in the order utf-8, utf-8-sig, latin-1, cp1252 (with lossy
utf-8 as a last resort), and since latin-1 decodes every byte sequence the
chain always produces a string by the third stage; consequently both
`parse` methods return a `ParseResult` for every byte sequence (never an
encoding error), with the text determined by the decoded content. -/
theorem decode_fallback_contract (content : List Byte) :
    (∀ t, decodeUtf8 content = some t → decodeContent content = t)
    ∧ (∀ t, decodeUtf8 content = none → decodeUtf8Sig content = some t →
        decodeContent content = t)
    ∧ (decodeUtf8 content = none → decodeUtf8Sig content = none →
        decodeContent content = decodeLatin1 content)
    ∧ decodeAttempts content ≠ none
    ∧ (parseMarkdown content).text = cleanTextMd (decodeContent content)
    ∧ (∀ extract, (parseLatex extract content).text = extract (decodeContent content)) := by
  refine ⟨?_, ?_, ?_, ?_, rfl, fun extract => rfl⟩
  · intro t h
    simp [decodeContent, decodeAttempts, h]
  · intro t h h2
    simp [decodeContent, decodeAttempts, h, h2]
  · intro h h2
    simp [decodeContent, decodeAttempts, h, h2]
  · unfold decodeAttempts
    cases h : decodeUtf8 content with
    | some t => simp
    | none =>
      cases h2 : decodeUtf8Sig content with
      | some t => simp
      | none => simp

/-- C8 witness: the byte `0xFF` is invalid UTF-8 (with or without BOM
stripping), and the fallback chain decodes it via latin-1 to U+00FF. -/
theorem decode_fallback_contract_witness :
    (decodeUtf8 [(0xff : Byte)] = none ∧ decodeUtf8Sig [(0xff : Byte)] = none)
    ∧ decodeContent [(0xff : Byte)] = decodeLatin1 [(0xff : Byte)] :=
  ⟨⟨rfl, rfl⟩, (decode_fallback_contract [(0xff : Byte)]).2.2.1 rfl rfl⟩

theorem mem_strip (s : PyStr) (c : Char) (h : c ∈ Py.strip s) : c ∈ s := by
  unfold Py.strip Py.rstrip Py.lstrip at h
  have h1 := (List.dropWhile_sublist _).subset (List.mem_reverse.mp h)
  have h2 := (List.dropWhile_sublist _).subset (List.mem_reverse.mp h1)
  exact h2

theorem isPrefixOf_append_l (pat : PyStr) :
    ∀ (l v : PyStr), pat.isPrefixOf l = true → pat.isPrefixOf (l ++ v) = true := by
  induction pat with
  | nil => intro l v _; cases l <;> cases v <;> simp [List.isPrefixOf]
  | cons p ps ih =>
    intro l v h
    cases l with
    | nil => simp [List.isPrefixOf] at h
    | cons a as =>
      simp only [List.isPrefixOf, Bool.and_eq_true] at h
      simp only [List.cons_append, List.isPrefixOf, Bool.and_eq_true]
      exact ⟨h.1, ih as v h.2⟩

theorem containsSub_cons (t pat : PyStr) (c : Char)
    (h : Py.containsSub t pat = true) : Py.containsSub (c :: t) pat = true := by
  unfold Py.containsSub Py.findSub
  by_cases hp : pat.isPrefixOf (c :: t)
  · simp [hp]
  · simp only [hp, if_false]
    unfold Py.containsSub at h
    simpa using h

theorem containsSub_append_left (pat : PyStr) :
    ∀ (u t : PyStr), Py.containsSub t pat = true → Py.containsSub (u ++ t) pat = true := by
  intro u
  induction u with
  | nil => intro t h; exact h
  | cons c u' ih => intro t h; exact containsSub_cons _ _ _ (ih t h)

theorem containsSub_nil_pat (v : PyStr) : Py.containsSub v [] = true := by
  cases v <;> simp [Py.containsSub, Py.findSub, List.isPrefixOf]

theorem containsSub_append_right (pat : PyStr) :
    ∀ (p v : PyStr), Py.containsSub p pat = true → Py.containsSub (p ++ v) pat = true := by
  intro p
  induction p with
  | nil =>
    intro v h
    unfold Py.containsSub Py.findSub at h
    cases pat with
    | nil => simpa using containsSub_nil_pat v
    | cons q qs => simp [List.isPrefixOf] at h
  | cons c p' ih =>
    intro v h
    unfold Py.containsSub Py.findSub at h
    by_cases hp : pat.isPrefixOf (c :: p')
    · have : pat.isPrefixOf ((c :: p') ++ v) = true := isPrefixOf_append_l pat _ v hp
      unfold Py.containsSub Py.findSub
      simp only [List.cons_append] at this ⊢
      simp [this]
    · simp only [hp, if_false] at h
      have h' : Py.containsSub p' pat = true := by
        unfold Py.containsSub
        simpa using h
      simpa [List.cons_append] using containsSub_cons (p' ++ v) pat c (ih v h')

theorem containsSub_strip (s pat : PyStr)
    (h : Py.containsSub (Py.strip s) pat = true) : Py.containsSub s pat = true := by
  unfold Py.strip at h
  -- rstrip of the lstripped text is a prefix of it
  have hr : ∃ v, Py.rstrip (Py.lstrip s) ++ v = Py.lstrip s := by
    refine ⟨((Py.lstrip s).reverse.takeWhile (fun c => c ∈ Py.stripChars)).reverse, ?_⟩
    unfold Py.rstrip
    rw [← List.reverse_append, List.takeWhile_append_dropWhile, List.reverse_reverse]
  rcases hr with ⟨v, hv⟩
  have h1 : Py.containsSub (Py.lstrip s) pat = true := by
    rw [← hv]
    exact containsSub_append_right pat _ v h
  have hl : ∃ u, u ++ Py.lstrip s = s :=
    ⟨s.takeWhile (fun c => c ∈ Py.stripChars), List.takeWhile_append_dropWhile _ s⟩
  rcases hl with ⟨u, hu⟩
  rw [← hu]
  exact containsSub_append_left pat u _ h1

theorem no_cr_replaceCr :
    ∀ fuel (s : PyStr), s.length ≤ fuel →
      '\r' ∉ replaceAllGo ['\r'] ['\n'] fuel s := by
  intro fuel
  induction fuel with
  | zero =>
    intro s hs
    have : s = [] := List.eq_nil_of_length_eq_zero (Nat.le_zero.mp hs)
    subst this
    simp [replaceAllGo]
  | succ fuel ih =>
    intro s hs
    cases s with
    | nil => simp [replaceAllGo]
    | cons c rest =>
      rw [replaceAllGo]
      simp only [List.length_cons] at hs
      by_cases hpre : (['\r'] : PyStr) ≠ [] ∧ (['\r'] : PyStr).isPrefixOf (c :: rest)
      · rw [if_pos hpre]
        intro hmem
        rcases List.mem_append.mp hmem with hmem | hmem
        · simp at hmem
        · have : (List.length (['\r'] : PyStr) - 1) = 0 := by decide
          rw [this, List.drop_zero] at hmem
          exact ih rest (by omega) hmem
      · rw [if_neg hpre]
        intro hmem
        rcases List.mem_cons.mp hmem with hmem | hmem
        · apply hpre
          subst hmem
          exact ⟨by decide, by simp [List.isPrefixOf]⟩
        · exact ih rest (by omega) hmem

theorem mem_collapseGo (c : Char) :
    ∀ fuel (s : PyStr), c ∈ collapseBlankRunsGo fuel s → c ∈ s ∨ c = '\n' := by
  intro fuel
  induction fuel with
  | zero => intro s h; exact Or.inl h
  | succ fuel ih =>
    intro s h
    rw [collapseBlankRunsGo] at h
    by_cases hocc : Py.containsSub s ['\n', '\n', '\n'] = true
    · rw [if_pos hocc] at h
      rcases ih _ h with h | h
      · rcases mem_replaceAll _ _ _ _ h with h | h
        · exact Or.inl h
        · right; simpa using h
      · exact Or.inr h
    · rw [if_neg hocc] at h
      exact Or.inl h

theorem replaceAllGo_id_of_head_not_mem (p0 : Char) (ps rep : PyStr) :
    ∀ fuel (s : PyStr), p0 ∉ s → replaceAllGo (p0 :: ps) rep fuel s = s := by
  intro fuel
  induction fuel with
  | zero => intro s _; cases s <;> rfl
  | succ fuel ih =>
    intro s hmem
    cases s with
    | nil => rfl
    | cons c rest =>
      rw [replaceAllGo]
      have hpre : ¬((p0 :: ps : PyStr) ≠ [] ∧ (p0 :: ps).isPrefixOf (c :: rest)) := by
        rintro ⟨-, hp⟩
        simp only [List.isPrefixOf, Bool.and_eq_true, beq_iff_eq] at hp
        exact hmem (hp.1 ▸ List.mem_cons_self _ _)
      rw [if_neg hpre]
      have : p0 ∉ rest := fun h => hmem (List.mem_cons_of_mem _ h)
      rw [ih rest this]

theorem collapseBlankRunsGo_id (s : PyStr)
    (h : Py.containsSub s ['\n', '\n', '\n'] = false) :
    ∀ fuel, collapseBlankRunsGo fuel s = s := by
  intro fuel
  cases fuel with
  | zero => rfl
  | succ fuel =>
    rw [collapseBlankRunsGo]
    rw [if_neg (by simp [h])]

/-- C9 counterexample: a run of exactly two blank lines (three
consecutive newlines — fewer than three blank lines) is not left
unchanged: `"a\n\n\nb"` becomes `"a\n\nb"`. -/
theorem markdown_clean_collapse_counterexample :
    cleanTextMd ('a' :: '\n' :: '\n' :: '\n' :: 'b' :: [])
      = ('a' :: '\n' :: '\n' :: 'b' :: [])
    ∧ ('a' :: '\n' :: '\n' :: '\n' :: 'b' :: [] : PyStr)
      ≠ ('a' :: '\n' :: '\n' :: 'b' :: []) :=
  ⟨rfl, by decide⟩

/-- C9 (amended): `_clean_text` normalizes all line endings to `\n` (no
carriage return survives), collapses blank-line runs until no two
consecutive blank lines remain (no `\n\n\n` substring in the output), and
is the identity on text that is already clean — free of `\r`, free of
three consecutive newlines, and stripped. -/
theorem markdown_clean_text_contract (t : PyStr) :
    '\r' ∉ cleanTextMd t
    ∧ Py.containsSub (cleanTextMd t) ['\n', '\n', '\n'] = false
    ∧ ('\r' ∉ t → Py.containsSub t ['\n', '\n', '\n'] = false → Py.strip t = t →
        cleanTextMd t = t) := by
  refine ⟨?_, ?_, ?_⟩
  · unfold cleanTextMd
    intro hmem
    have h1 := mem_strip _ _ hmem
    rcases mem_collapseGo _ _ _ h1 with h2 | h2
    · exact no_cr_replaceCr _ _ (Nat.le_refl _) h2
    · simp at h2
  · unfold cleanTextMd
    cases hc : Py.containsSub
        (Py.strip (collapseBlankRuns
          (replaceAll ['\r'] ['\n'] (replaceAll ['\r', '\n'] ['\n'] t))))
        ['\n', '\n', '\n'] with
    | false => rfl
    | true =>
      exfalso
      have := containsSub_strip _ _ hc
      have h2 := collapseBlankRuns_no_triple
        (replaceAll ['\r'] ['\n'] (replaceAll ['\r', '\n'] ['\n'] t)).length
        (replaceAll ['\r'] ['\n'] (replaceAll ['\r', '\n'] ['\n'] t))
        (Nat.le_refl _)
      rw [collapseBlankRuns] at this
      rw [h2] at this
      exact Bool.false_ne_true this
  · intro hcr hocc hstrip
    unfold cleanTextMd
    rw [show replaceAll ['\r', '\n'] ['\n'] t = t from
        replaceAllGo_id_of_head_not_mem '\r' ['\n'] ['\n'] t.length t hcr,
      show replaceAll ['\r'] ['\n'] t = t from
        replaceAllGo_id_of_head_not_mem '\r' [] ['\n'] t.length t hcr,
      show collapseBlankRuns t = t from collapseBlankRunsGo_id t hocc t.length,
      hstrip]

/-- C9 amended-claim witness: the already-clean text `"a\n\nb"` (one
blank line, no `\r`, stripped) is returned unchanged. -/
theorem markdown_clean_text_contract_witness :
    ('\r' ∉ (['a', '\n', '\n', 'b'] : PyStr)
      ∧ Py.containsSub ['a', '\n', '\n', 'b'] ['\n', '\n', '\n'] = false
      ∧ Py.strip ['a', '\n', '\n', 'b'] = ['a', '\n', '\n', 'b'])
    ∧ cleanTextMd ['a', '\n', '\n', 'b'] = ['a', '\n', '\n', 'b'] :=
  ⟨⟨by decide, by decide, by decide⟩,
    (markdown_clean_text_contract ['a', '\n', '\n', 'b']).2.2
      (by decide) (by decide) (by decide)⟩

/-- An input longer than the text parsers' 1MB limit, with PDF magic
bytes: `%PDF` followed by 2MiB of `a`. -/
def bigPdfBytes : List Byte := pdfMagic ++ List.replicate (2 * 1024 * 1024) (0x61 : Byte)

/-- C7 counterexample: the PDF validator has no byte-length maximum — a
well-formed, unencrypted PDF of 2097156 bytes (far above the 1MB
`MAX_FILE_SIZE` of the text parsers) passes `validate_file`, and the
validator reaches the `PdfReader` structure check (here a reader model of
a valid document) rather than rejecting on size. -/
theorem pdf_validate_no_size_limit :
    bigPdfBytes.length = 2097156
    ∧ MAX_FILE_SIZE < 2097156
    ∧ validateFilePdf (fun _ => .opened false none) bigPdfBytes ("resume.pdf".toList)
      = (true, none) := by
  refine ⟨?_, by decide, ?_⟩
  · rw [bigPdfBytes, List.length_append, List.length_replicate]
    rfl
  · rfl

/-- C7 (amended): the Markdown and LaTeX validators check the content
length against their 1MB `MAX_FILE_SIZE` before any decoding and reject
larger inputs (with the size message when the extension matched); the PDF
validator performs no size check (`pdf_validate_no_size_limit`). -/
theorem text_parser_size_limit (content : List Byte) (filename : PyStr)
    (h : content.length > MAX_FILE_SIZE) :
    (validateFileMd content filename).1 = false
    ∧ (canHandle mdExtensions filename = true →
        validateFileMd content filename
          = (false, some "File too large: maximum size is 1024KB".toList))
    ∧ (validateFileLatex content filename).1 = false
    ∧ (canHandle latexExtensions filename = true →
        validateFileLatex content filename
          = (false, some "File too large: maximum size is 1024KB".toList)) := by
  have hne : content.isEmpty = false := by
    cases content with
    | nil => simp [MAX_FILE_SIZE] at h
    | cons b rest => rfl
  refine ⟨?_, ?_, ?_, ?_⟩
  · unfold validateFileMd
    by_cases hc : canHandle mdExtensions filename = true
    · simp [hc, hne, h]
    · simp [(Bool.not_eq_true _).mp hc]
  · intro hc
    unfold validateFileMd
    simp [hc, hne, h]
  · unfold validateFileLatex
    by_cases hc : canHandle latexExtensions filename = true
    · simp [hc, hne, h]
    · simp [(Bool.not_eq_true _).mp hc]
  · intro hc
    unfold validateFileLatex
    simp [hc, hne, h]

/-- C7 amended-claim witness: a 1048577-byte Markdown upload is rejected
for size. -/
theorem text_parser_size_limit_witness :
    ((List.replicate 1048577 (0 : Byte)).length > MAX_FILE_SIZE
      ∧ canHandle mdExtensions ("resume.md".toList) = true)
    ∧ validateFileMd (List.replicate 1048577 (0 : Byte)) ("resume.md".toList)
      = (false, some "File too large: maximum size is 1024KB".toList) := by
  have hlen : (List.replicate 1048577 (0 : Byte)).length > MAX_FILE_SIZE := by
    rw [List.length_replicate]
    decide
  exact ⟨⟨hlen, by decide⟩,
    (text_parser_size_limit (List.replicate 1048577 (0 : Byte))
      ("resume.md".toList) hlen).2.1 (by decide)⟩
